import Mathlib

/-!
Verification of the RFMP daemon core against its specification.

Shallow embedding of the Python sources of `rfmpd` (KISS codec, AX.25
addresses, RFMP frame codec, fragmenter, rotating Bloom filter, REQ rate
limiter, SQLite-backed store and the orchestrator's ingest handlers) as
executable Lean definitions, together with theorems settling the spec
claims about them.

Bytes are modelled as `Nat` (values < 256 on real inputs); byte strings as
`List Nat`.  Fallible Python code that returns `None` is modelled with
`Option`; Python code that can raise an exception is modelled with
`Except Unit`.
-/

namespace Rfmpd

/-! ### KISS codec (`rfmpd/network/kiss.py`) -/

/-- KISS special byte: frame end. -/
def FEND : Nat := 0xC0
/-- KISS special byte: frame escape. -/
def FESC : Nat := 0xDB
/-- KISS special byte: transposed frame end. -/
def TFEND : Nat := 0xDC
/-- KISS special byte: transposed frame escape. -/
def TFESC : Nat := 0xDD

/-- The values of the Python `KISSCommand` IntEnum.  Constructing
`KISSCommand(x)` for any other `x` raises `ValueError`. -/
def KISSCommand.isValid (x : Nat) : Bool :=
  x = 0x00 || x = 0x01 || x = 0x02 || x = 0x03 || x = 0x04 || x = 0x05 ||
  x = 0x06 || x = 0x0F

/-- A decoded KISS frame (`KISSFrame` dataclass).  `command` is the numeric
value of the `KISSCommand` member. -/
structure KISSFrame where
  port : Nat
  command : Nat
  data : List Nat
  deriving Repr, DecidableEq

/-- The escape loop inside `KISSFrame.encode`:
`0xC0 -> 0xDB 0xDC`, `0xDB -> 0xDB 0xDD`, all other bytes unchanged. -/
def kissEscape : List Nat → List Nat
  | [] => []
  | b :: rest =>
    if b = FEND then FESC :: TFEND :: kissEscape rest
    else if b = FESC then FESC :: TFESC :: kissEscape rest
    else b :: kissEscape rest

/-- `KISSFrame.encode`: delimit the escaped command byte and payload with
`FEND` markers.  The command byte is `(port << 4) | command`. -/
def KISSFrame.encode (f : KISSFrame) : List Nat :=
  FEND :: kissEscape ((f.port <<< 4 ||| f.command) :: f.data) ++ [FEND]

/-- The unescape loop inside `KISSFrame.decode`.  Returns `none` on an
invalid or incomplete escape sequence (the Python code returns `None`). -/
def kissUnescape : List Nat → Option (List Nat)
  | [] => some []
  | b :: rest =>
    if b = FESC then
      match rest with
      | [] => none
      | c :: rest2 =>
        if c = TFEND then (kissUnescape rest2).map (FEND :: ·)
        else if c = TFESC then (kissUnescape rest2).map (FESC :: ·)
        else none
    else (kissUnescape rest).map (b :: ·)

/-- First delimiter strip in `KISSFrame.decode`: `if data[0] == FEND:
data = data[1:]`. -/
def stripLeadFEND (data : List Nat) : List Nat :=
  if data.head? = some FEND then data.tail else data

/-- Second delimiter strip in `KISSFrame.decode`: `if data and data[-1] ==
FEND: data = data[:-1]`. -/
def stripTrailFEND (d : List Nat) : List Nat :=
  if d ≠ [] ∧ d.getLast? = some FEND then d.dropLast else d

/-- The tail of `KISSFrame.decode` after delimiter stripping: unescape,
then read the command byte.  `.ok none` models a `return None`;
`.error ()` models the uncaught `ValueError` raised by
`KISSCommand(cmd_byte & 0x0F)` when the command nibble is not a member of
the enum. -/
def decodeCore (d2 : List Nat) : Except Unit (Option KISSFrame) :=
  if d2 = [] then .ok none else
  match kissUnescape d2 with
  | none => .ok none
  | some [] => .ok none
  | some (cmdByte :: rest) =>
    if KISSCommand.isValid (cmdByte &&& 0x0F) then
      .ok (some ⟨(cmdByte >>> 4) &&& 0x0F, cmdByte &&& 0x0F, rest⟩)
    else
      .error ()

/-- `KISSFrame.decode`: strip the `FEND` delimiters, unescape, and read
the command byte. -/
def KISSFrame.decode (data : List Nat) : Except Unit (Option KISSFrame) :=
  if data = [] then .ok none else
  decodeCore (stripTrailFEND (stripLeadFEND data))

/-- One pass of the `while FEND in self.buffer` loop of
`KISSProtocol.decode_frames`, written with explicit fuel so that the
definition is structurally recursive.  Each loop iteration removes at least
two bytes from the buffer, so `fuel = buffer.length + 1` (as used in
`KISSProtocol.decodeFrames`) never runs out before the loop's own exit
conditions fire. -/
def decodeFramesLoop : Nat → List Nat → Except Unit (List KISSFrame × List Nat)
  | 0, buffer => .ok ([], buffer)
  | fuel + 1, buffer =>
    match buffer.dropWhile (· ≠ FEND) with
    | [] => .ok ([], buffer)
    | _ :: tail =>
      let mid := tail.takeWhile (· ≠ FEND)
      match tail.dropWhile (· ≠ FEND) with
      | [] => .ok ([], buffer)
      | _ :: rest =>
        match KISSFrame.decode (FEND :: (mid ++ [FEND])) with
        | .error e => .error e
        | .ok of =>
          match decodeFramesLoop fuel rest with
          | .error e => .error e
          | .ok (fs, buf) =>
            .ok ((match of with
                  | some f => if f.command = 0 then f :: fs else fs
                  | none => fs), buf)

/-- `KISSProtocol.decode_frames`: append the received bytes to the
persistent buffer, then repeatedly extract complete `FEND`-delimited
frames, keeping only data frames (`command == DATA_FRAME`).  Returns the
emitted frames and the remaining buffer, or `.error ()` if
`KISSFrame.decode` raised. -/
def KISSProtocol.decodeFrames (buffer data : List Nat) :
    Except Unit (List KISSFrame × List Nat) :=
  let b := buffer ++ data
  decodeFramesLoop (b.length + 1) b

/-- `KISSProtocol.encode_data`: wrap raw data in a KISS data frame on the
protocol's port (the daemon always uses port 0). -/
def KISSProtocol.encodeData (port : Nat) (data : List Nat) : List Nat :=
  KISSFrame.encode ⟨port, 0x00, data⟩

/-! ### AX.25 addresses (`rfmpd/network/ax25.py`) -/

/-- An `AX25Address` value as produced by the dataclass after
`__post_init__` ran successfully. -/
structure AX25Address where
  callsign : String
  ssid : Int
  deriving Repr, DecidableEq

/-- Python `str.upper`, modelled character-wise with `Char.toUpper`
(exact on the ASCII callsigns the protocol deals in). -/
def upperStr (s : String) : String := ⟨s.data.map Char.toUpper⟩

/-- `AX25Address.__post_init__`: uppercase the callsign, reject a callsign
*longer* than 6 characters, reject an SSID outside 0..15.  `.error` models
the raised `ValueError`. -/
def AX25Address.make (callsign : String) (ssid : Int) :
    Except String AX25Address :=
  if 6 < (upperStr callsign).length then .error "Callsign too long"
  else if ¬(0 ≤ ssid ∧ ssid ≤ 15) then .error "SSID must be 0-15"
  else .ok ⟨upperStr callsign, ssid⟩

/-! ### Transmission queue (`rfmpd/storage/database.py`) -/

/-- One row of the `transmission_queue` table. -/
structure TxRow where
  id : Nat
  frameType : String
  frameData : String
  priority : Int
  scheduledAt : Int
  createdAt : Int
  attempts : Nat
  status : String
  deriving Repr, DecidableEq

/-- The `WHERE status = 'pending' AND scheduled_at <= ?` filter of
`get_next_transmission`. -/
def txEligible (now : Int) (r : TxRow) : Bool :=
  r.status = "pending" && r.scheduledAt ≤ now

/-- `ORDER BY priority DESC, scheduled_at ASC LIMIT 1`: the first row of
the list under that ordering (earlier rows win ties, matching a stable
scan). -/
def txSelect : List TxRow → Option TxRow
  | [] => none
  | r :: rest =>
    match txSelect rest with
    | none => some r
    | some s =>
      if r.priority < s.priority ∨
          (s.priority = r.priority ∧ s.scheduledAt < r.scheduledAt) then
        some s
      else
        some r

/-- `Database.get_next_transmission`: select the best eligible pending row
(if any), mark it `transmitting`, and return it together with the updated
table. -/
def getNextTransmission (now : Int) (q : List TxRow) :
    Option TxRow × List TxRow :=
  match txSelect (q.filter (txEligible now)) with
  | none => (none, q)
  | some r =>
    (some r,
     q.map (fun x => if x.id = r.id then { x with status := "transmitting" }
                     else x))

/-! ### UTF-8 encoding

Python strings hash and transmit as their UTF-8 bytes; `utf8Encode` is the
standard scalar-value encoding. -/

/-- UTF-8 encoding of a single unicode scalar value (1-4 bytes), written
with division/remainder (equivalent to the usual shift-and-mask form). -/
def utf8EncodeChar (c : Char) : List Nat :=
  let n := c.toNat
  if n < 0x80 then [n]
  else if n < 0x800 then
    [0xC0 + n / 0x40, 0x80 + n % 0x40]
  else if n < 0x10000 then
    [0xE0 + n / 0x1000, 0x80 + n / 0x40 % 0x40, 0x80 + n % 0x40]
  else
    [0xF0 + n / 0x40000, 0x80 + n / 0x1000 % 0x40,
     0x80 + n / 0x40 % 0x40, 0x80 + n % 0x40]

/-- UTF-8 encoding of a character list. -/
def utf8EncodeChars (cs : List Char) : List Nat :=
  (cs.map utf8EncodeChar).flatten

/-- UTF-8 encoding of a string. -/
def utf8Encode (s : String) : List Nat :=
  utf8EncodeChars s.data

/-- UTF-8 decoding (as `bytes.decode('utf-8')`): rejects stray or missing
continuation bytes, overlong encodings, surrogates and out-of-range
values; `none` models the raised `UnicodeDecodeError`. (`utf8DecodeOne` handles one scalar). -/
def utf8DecodeOne : List Nat → Option (Char × List Nat)
  | [] => none
  | b :: rest =>
    if b < 0x80 then some (Char.ofNat b, rest)
    else if b < 0xC0 then none
    else if b < 0xE0 then
      match rest with
      | b1 :: rest2 =>
        if 0x80 ≤ b1 ∧ b1 < 0xC0 then
          if 0x80 ≤ (b - 0xC0) * 0x40 + (b1 - 0x80) then
            some (Char.ofNat ((b - 0xC0) * 0x40 + (b1 - 0x80)), rest2)
          else none
        else none
      | [] => none
    else if b < 0xF0 then
      match rest with
      | b1 :: b2 :: rest2 =>
        if 0x80 ≤ b1 ∧ b1 < 0xC0 ∧ 0x80 ≤ b2 ∧ b2 < 0xC0 then
          if 0x800 ≤ (b - 0xE0) * 0x1000 + (b1 - 0x80) * 0x40 + (b2 - 0x80) ∧
              ((b - 0xE0) * 0x1000 + (b1 - 0x80) * 0x40 + (b2 - 0x80)
                < 0xD800 ∨
               0xE000 ≤ (b - 0xE0) * 0x1000 + (b1 - 0x80) * 0x40
                + (b2 - 0x80)) then
            some (Char.ofNat ((b - 0xE0) * 0x1000 + (b1 - 0x80) * 0x40
              + (b2 - 0x80)), rest2)
          else none
        else none
      | _ => none
    else if b < 0xF8 then
      match rest with
      | b1 :: b2 :: b3 :: rest2 =>
        if 0x80 ≤ b1 ∧ b1 < 0xC0 ∧ 0x80 ≤ b2 ∧ b2 < 0xC0 ∧
            0x80 ≤ b3 ∧ b3 < 0xC0 then
          if 0x10000 ≤ (b - 0xF0) * 0x40000 + (b1 - 0x80) * 0x1000
                + (b2 - 0x80) * 0x40 + (b3 - 0x80) ∧
              (b - 0xF0) * 0x40000 + (b1 - 0x80) * 0x1000
                + (b2 - 0x80) * 0x40 + (b3 - 0x80) < 0x110000 then
            some (Char.ofNat ((b - 0xF0) * 0x40000 + (b1 - 0x80) * 0x1000
              + (b2 - 0x80) * 0x40 + (b3 - 0x80)), rest2)
          else none
        else none
      | _ => none
    else none

/-- The decoding loop, structurally recursive on an explicit fuel; every
step consumes at least one byte, so `length + 1` fuel always suffices. -/
def utf8DecodeLoop : Nat → List Nat → Option (List Char)
  | 0, _ => none
  | _ + 1, [] => some []
  | fuel + 1, b :: rest =>
    match utf8DecodeOne (b :: rest) with
    | some (c, rest2) => (utf8DecodeLoop fuel rest2).map (c :: ·)
    | none => none

/-- `bytes.decode` over a whole byte list. -/
def utf8Decode (bs : List Nat) : Option (List Char) :=
  utf8DecodeLoop (bs.length + 1) bs

/-! ### MurmurHash3 x86 32-bit (`mmh3.hash(item, seed, signed=False)`) -/

/-- 32-bit left rotation. -/
def rotl32 (x r : Nat) : Nat := ((x <<< r) ||| (x >>> (32 - r))) % 2 ^ 32

/-- MurmurHash3 finalization mix. -/
def fmix32 (h0 : Nat) : Nat :=
  let h1 := h0 ^^^ (h0 >>> 16)
  let h2 := (h1 * 0x85ebca6b) % 2 ^ 32
  let h3 := h2 ^^^ (h2 >>> 13)
  let h4 := (h3 * 0xc2b2ae35) % 2 ^ 32
  h4 ^^^ (h4 >>> 16)

/-- MurmurHash3 body: consume little-endian 4-byte blocks, returning the
running hash and the 0-3 leftover tail bytes. -/
def murmurBlocks (h : Nat) : List Nat → Nat × List Nat
  | b0 :: b1 :: b2 :: b3 :: rest =>
    let k1 := (b0 + b1 * 0x100 + b2 * 0x10000 + b3 * 0x1000000) % 2 ^ 32
    let k2 := (k1 * 0xcc9e2d51) % 2 ^ 32
    let k3 := rotl32 k2 15
    let k4 := (k3 * 0x1b873593) % 2 ^ 32
    let h1 := h ^^^ k4
    let h2 := rotl32 h1 13
    let h3 := (h2 * 5 + 0xe6546b64) % 2 ^ 32
    murmurBlocks h3 rest
  | rest => (h, rest)

/-- MurmurHash3 tail: mix in the 0-3 leftover bytes. -/
def murmurTail (h : Nat) (tail : List Nat) : Nat :=
  match tail with
  | [] => h
  | t =>
    let k0 := match t with
      | [a] => a
      | [a, b] => a + b * 0x100
      | [a, b, c] => a + b * 0x100 + c * 0x10000
      | _ => 0
    let k1 := (k0 * 0xcc9e2d51) % 2 ^ 32
    let k2 := rotl32 k1 15
    let k3 := (k2 * 0x1b873593) % 2 ^ 32
    h ^^^ k3

/-- Unsigned MurmurHash3_x86_32 of a byte string. -/
def murmur3 (data : List Nat) (seed : Nat) : Nat :=
  let bt := murmurBlocks (seed % 2 ^ 32) data
  let h1 := murmurTail bt.1 bt.2
  let h2 := h1 ^^^ (data.length % 2 ^ 32)
  fmix32 h2

/-! ### Bloom filter (`rfmpd/sync/bloom.py`) -/

/-- A `BloomFilter`: `numBits` bits stored little-bit-order in
`numBits / 8` bytes.  (`__init__` additionally rejects a `num_bits` that
is not a multiple of 8; every use in the daemon passes 256.) -/
structure BloomFilter where
  numBits : Nat
  numHashes : Nat
  bits : List Nat
  deriving Repr, DecidableEq

/-- A fresh all-zero filter. -/
def emptyBloom (numBits numHashes : Nat) : BloomFilter :=
  ⟨numBits, numHashes, List.replicate (numBits / 8) 0⟩

/-- The bit position used for `item` under hash seed `seed`:
`mmh3.hash(item, seed, signed=False) % num_bits`. -/
def bloomBitPos (bf : BloomFilter) (item : String) (seed : Nat) : Nat :=
  murmur3 (utf8Encode item) seed % bf.numBits

/-- The byte-array update `bits[pos // 8] |= 1 << (pos % 8)` performed for
one hash position. -/
def setBloomBit (bs : List Nat) (pos : Nat) : List Nat :=
  bs.set (pos / 8) (bs.getD (pos / 8) 0 ||| (1 <<< (pos % 8)))

/-- The byte-array test `bits[pos // 8] & (1 << (pos % 8))` performed for
one hash position. -/
def testBloomBit (bs : List Nat) (pos : Nat) : Bool :=
  bs.getD (pos / 8) 0 &&& (1 <<< (pos % 8)) ≠ 0

/-- `BloomFilter.add`: set the `num_hashes` bits of `item`. -/
def bloomAdd (bf : BloomFilter) (item : String) : BloomFilter :=
  { bf with
    bits := (List.range bf.numHashes).foldl
      (fun bs seed => setBloomBit bs (bloomBitPos bf item seed)) bf.bits }

/-- `BloomFilter.contains`: true iff all `num_hashes` bits of `item` are
set. -/
def bloomContains (bf : BloomFilter) (item : String) : Bool :=
  (List.range bf.numHashes).all
    (fun seed => testBloomBit bf.bits (bloomBitPos bf item seed))

/-! ### Rotating Bloom filter (`rfmpd/sync/bloom.py`)

Wall-clock time is modelled explicitly: every operation takes the current
time `now` (in seconds, as an integer) where the Python code calls
`datetime.utcnow()`. -/

/-- `RotatingBloomFilter` state: `windows` holds `(window_start, filter)`
pairs, position 0 newest. -/
structure RotatingBloomFilter where
  windowDuration : Int
  windowCount : Nat
  bloomBits : Nat
  bloomHashes : Nat
  windows : List (Int × BloomFilter)
  currentWindowIndex : Nat
  deriving Repr, DecidableEq

/-- `RotatingBloomFilter.__init__` at time `now`: window `i` starts at
`now - i * window_duration`. -/
def rbInit (now : Int) (dur : Int) (cnt bits hashes : Nat) :
    RotatingBloomFilter :=
  ⟨dur, cnt, bits, hashes,
   (List.range cnt).map (fun i => (now - dur * i, emptyBloom bits hashes)),
   0⟩

/-- `_rotate_if_needed`: when the oldest window's age exceeds
`window_duration * window_count`, pop it and prepend a fresh window
stamped `now` (a single rotation per call, as in the source). -/
def rotateIfNeeded (now : Int) (rb : RotatingBloomFilter) :
    RotatingBloomFilter :=
  match rb.windows.getLast? with
  | none => rb
  | some w =>
    if rb.windowDuration * rb.windowCount < now - w.1 then
      { rb with
        windows := (now, emptyBloom rb.bloomBits rb.bloomHashes)
          :: rb.windows.dropLast,
        currentWindowIndex := (rb.currentWindowIndex + 1) % rb.windowCount }
    else
      rb

/-- `RotatingBloomFilter.add`: rotate if needed, then add to the newest
window.  (With a nonempty window list the head always exists; the `[]`
case is unreachable for the daemon's `window_count = 3`.) -/
def rbAdd (now : Int) (item : String) (rb : RotatingBloomFilter) :
    RotatingBloomFilter :=
  let rb2 := rotateIfNeeded now rb
  match rb2.windows with
  | [] => rb2
  | w :: rest =>
    { rb2 with windows := (w.1, bloomAdd w.2 item) :: rest }

/-- `RotatingBloomFilter.contains`: rotate if needed, then test every
window.  The rotation mutates the filter, so the updated state is
returned alongside the result. -/
def rbContains (now : Int) (item : String) (rb : RotatingBloomFilter) :
    Bool × RotatingBloomFilter :=
  let rb2 := rotateIfNeeded now rb
  (rb2.windows.any (fun w => bloomContains w.2 item), rb2)

/-- A timed call against the rotating filter. -/
inductive RBOp where
  | add (t : Int) (item : String)
  | query (t : Int) (item : String)
  deriving Repr, DecidableEq

/-- The wall-clock time of a call. -/
def RBOp.time : RBOp → Int
  | .add t _ => t
  | .query t _ => t

/-- Apply one call to the filter state. -/
def rbStep (rb : RotatingBloomFilter) : RBOp → RotatingBloomFilter
  | .add t item => rbAdd t item rb
  | .query t item => (rbContains t item rb).2

/-- Run a sequence of calls. -/
def rbRun (ops : List RBOp) (rb : RotatingBloomFilter) :
    RotatingBloomFilter :=
  ops.foldl rbStep rb

/-- Well-formedness of a rotating filter: positive byte-aligned filter
size and every window's filter sized accordingly (as guaranteed by
`__init__`). -/
def RBWF (rb : RotatingBloomFilter) : Prop :=
  0 < rb.bloomBits ∧ rb.bloomBits % 8 = 0 ∧
  ∀ w ∈ rb.windows, w.2.numBits = rb.bloomBits ∧
    w.2.numHashes = rb.bloomHashes ∧
    w.2.bits.length = rb.bloomBits / 8

/-- Proof-state predicate: some window whose start is `s0` still answers
`contains x` positively. -/
def rbWitness (s0 : Int) (x : String) (rb : RotatingBloomFilter) : Prop :=
  ∃ w ∈ rb.windows, w.1 = s0 ∧ bloomContains w.2 x = true

/-! ### REQ rate limiter (`rfmpd/sync/rate_limit.py`)

Wall-clock time is modelled as an integer number of seconds passed
explicitly to each call. -/

/-- `RateLimitConfig` (defaults 6 / 30 s / 600 s / 4). -/
structure RateLimitConfig where
  maxReqPerMin : Nat
  initialBackoff : Int
  maxBackoff : Int
  maxRetries : Nat
  deriving Repr, DecidableEq

/-- The default configuration used by `RateLimiter()`. -/
def defaultRateLimitConfig : RateLimitConfig := ⟨6, 30, 600, 4⟩

/-- `RequestRecord`: per-message REQ state. -/
structure RequestRecord where
  messageId : String
  firstAttempt : Int
  lastAttempt : Int
  attemptCount : Nat
  backoffSeconds : Int
  deriving Repr, DecidableEq

/-- `RateLimiter` state: the trailing request history and the per-message
records (the Python dict is modelled as an association list with unique
keys). -/
structure RateLimiter where
  config : RateLimitConfig
  requestHistory : List Int
  messageRequests : List (String × RequestRecord)
  deriving Repr, DecidableEq

/-- `RateLimiter.__init__`. -/
def rlInit (cfg : RateLimitConfig) : RateLimiter := ⟨cfg, [], []⟩

/-- In-place mutation of the record stored under `id` (Python mutates the
dict's value object). -/
def alistUpdate (id : String) (v : RequestRecord) :
    List (String × RequestRecord) → List (String × RequestRecord)
  | [] => []
  | (k, w) :: rest =>
    if k = id then (k, v) :: rest else (k, w) :: alistUpdate id v rest

/-- `_check_global_limit`: prune history entries older than 60 s, then
compare the count against `max_req_per_min`.  The pruning mutates the
limiter, so the updated state is returned. -/
def checkGlobalLimit (now : Int) (rl : RateLimiter) : Bool × RateLimiter :=
  ((rl.requestHistory.filter (fun ts => now - 60 < ts)).length
      < rl.config.maxReqPerMin,
   { rl with
     requestHistory := rl.requestHistory.filter (fun ts => now - 60 < ts) })

/-- `_check_message_limit`: unknown ids pass; otherwise require
`attempt_count < max_retries` and `now ≥ last_attempt + backoff`. -/
def checkMessageLimit (now : Int) (id : String) (rl : RateLimiter) : Bool :=
  match rl.messageRequests.lookup id with
  | none => true
  | some rec0 =>
    if rl.config.maxRetries ≤ rec0.attemptCount then false
    else decide (rec0.lastAttempt + rec0.backoffSeconds ≤ now)

/-- `can_send_req` (always called with a message id in this model): global
limit first, then the per-message limit. -/
def canSendReq (now : Int) (id : String) (rl : RateLimiter) :
    Bool × RateLimiter :=
  match checkGlobalLimit now rl with
  | (false, rl2) => (false, rl2)
  | (true, rl2) =>
    if checkMessageLimit now id rl2 then (true, rl2) else (false, rl2)

/-- `record_req`: append `now` to the global history; create the record
with `attempt_count = 1` and `backoff = initial_backoff` on the first
request, else bump the count and double the backoff capped at
`max_backoff`. -/
def recordReq (now : Int) (id : String) (rl : RateLimiter) : RateLimiter :=
  match rl.messageRequests.lookup id with
  | some rec0 =>
    { rl with
      requestHistory := rl.requestHistory ++ [now],
      messageRequests := alistUpdate id
        { rec0 with
          lastAttempt := now,
          attemptCount := rec0.attemptCount + 1,
          backoffSeconds := min rl.config.maxBackoff
            (rec0.backoffSeconds * 2) }
        rl.messageRequests }
  | none =>
    { rl with
      requestHistory := rl.requestHistory ++ [now],
      messageRequests :=
        (id, ⟨id, now, now, 1, rl.config.initialBackoff⟩)
          :: rl.messageRequests }

/-- One REQ attempt as the engine performs it: check `can_send_req`; when
admitted, `record_req` and send. -/
def rlAttempt (now : Int) (id : String) (rl : RateLimiter) :
    Bool × RateLimiter :=
  match canSendReq now id rl with
  | (true, rl2) => (true, recordReq now id rl2)
  | (false, rl2) => (false, rl2)

/-- Run a trace of timed REQ attempts, returning the admitted ones (in
order) and the final limiter state. -/
def rlRun : List (Int × String) → RateLimiter →
    List (Int × String) × RateLimiter
  | [], rl => ([], rl)
  | (t, id) :: rest, rl =>
    match rlAttempt t id rl with
    | (true, rl2) =>
      ((t, id) :: (rlRun rest rl2).1, (rlRun rest rl2).2)
    | (false, rl2) => rlRun rest rl2

/-- The admission times of a trace result. -/
def admittedTimes (adm : List (Int × String)) : List Int := adm.map Prod.fst

/-- The admission times of a trace result restricted to one message id. -/
def admittedFor (id : String) (adm : List (Int × String)) : List Int :=
  (adm.filter (fun e => e.2 = id)).map Prod.fst

/-- The backoff in force after the `(i+1)`-st admission for an id:
`min(max_backoff, initial_backoff × 2^i)`. -/
def backoffTerm (cfg : RateLimitConfig) (i : Nat) : Int :=
  min cfg.maxBackoff (cfg.initialBackoff * 2 ^ i)

/-- The claim's lower bound on the gap between the first and the n-th
admission for an id. -/
def backoffSum (cfg : RateLimitConfig) (n : Nat) : Int :=
  ∑ i ∈ Finset.range n, backoffTerm cfg i

/-- Invariant tying the per-message records to the admissions that
produced them (see the rate-limiter theorems). -/
def RLRecordsOK (cfg : RateLimitConfig) (adm : List (Int × String))
    (mreqs : List (String × RequestRecord)) : Prop :=
  ∀ id : String,
    (admittedFor id adm = [] → mreqs.lookup id = none) ∧
    (∀ u0 us, admittedFor id adm = u0 :: us →
      ∃ rec0, mreqs.lookup id = some rec0 ∧
        rec0.attemptCount = (u0 :: us).length ∧
        rec0.backoffSeconds = backoffTerm cfg us.length ∧
        (u0 :: us).getLast? = some rec0.lastAttempt ∧
        (∀ n, n < (u0 :: us).length →
          u0 + backoffSum cfg n ≤ (u0 :: us).getD n 0) ∧
        (1 ≤ cfg.maxRetries → (u0 :: us).length ≤ cfg.maxRetries))


/-! ### Decimal integers (`str(int)` / `int(str)`) -/

/-- Decimal digits of `n`, most significant first; structurally recursive
on an explicit fuel (`fuel > n` suffices). -/
def natToDigitsAux : Nat → Nat → List Char
  | 0, _ => []
  | fuel + 1, n =>
    if n < 10 then [Char.ofNat (48 + n)]
    else natToDigitsAux fuel (n / 10) ++ [Char.ofNat (48 + n % 10)]

/-- Decimal digits of a natural number (`str(n)` for `n ≥ 0`). -/
def natToDigits (n : Nat) : List Char := natToDigitsAux (n + 1) n

/-- `str(i)` for a Python int. -/
def intToChars (i : Int) : List Char :=
  if i < 0 then '-' :: natToDigits i.natAbs else natToDigits i.natAbs

/-- Accumulating decimal parser: all characters must be digits. -/
def parseDigitsAux (acc : Nat) : List Char → Option Nat
  | [] => some acc
  | c :: rest =>
    if 48 ≤ c.toNat ∧ c.toNat ≤ 57 then
      parseDigitsAux (acc * 10 + (c.toNat - 48)) rest
    else none

/-- Parse a nonempty all-digit string. -/
def parseDigits (cs : List Char) : Option Nat :=
  if cs = [] then none else parseDigitsAux 0 cs

/-- `int(s)` (sign plus digits; whitespace/underscore forms are never
produced by this codebase).  `none` models the raised `ValueError`. -/
def pyParseInt (cs : List Char) : Option Int :=
  match cs with
  | [] => none
  | c :: rest =>
    if c = '-' then (parseDigits rest).map (fun n => -(n : Int))
    else if c = '+' then (parseDigits rest).map (fun n => (n : Int))
    else (parseDigits (c :: rest)).map (fun n => (n : Int))

/-! ### Base64 (`base64.b64encode` / `b64decode`) -/

/-- The base64 alphabet. -/
def b64Char (n : Nat) : Char :=
  ("ABCDEFGHIJKLMNOPQRSTUVWXYZabcdefghijklmnopqrstuvwxyz0123456789+/".data).getD
    n 'A'

/-- Inverse alphabet lookup. -/
def b64Value (c : Char) : Option Nat :=
  ("ABCDEFGHIJKLMNOPQRSTUVWXYZabcdefghijklmnopqrstuvwxyz0123456789+/".data).findIdx?
    (· = c)

/-- `base64.b64encode` over byte lists (with `=` padding). -/
def b64EncodeList : List Nat → List Char
  | a :: b :: c :: rest =>
    b64Char (a / 4) :: b64Char (a % 4 * 16 + b / 16) ::
    b64Char (b % 16 * 4 + c / 64) :: b64Char (c % 64) :: b64EncodeList rest
  | [a, b] =>
    [b64Char (a / 4), b64Char (a % 4 * 16 + b / 16), b64Char (b % 16 * 4), '=']
  | [a] => [b64Char (a / 4), b64Char (a % 4 * 16), '=', '=']
  | [] => []

/-- `base64.b64decode` over quads (strict alphabet; the Python default
additionally discards foreign characters first, which no claim
exercises). -/
def b64DecodeList : List Char → Option (List Nat)
  | [] => some []
  | c1 :: c2 :: c3 :: c4 :: rest =>
    match b64Value c1, b64Value c2 with
    | some v1, some v2 =>
      if c3 = '=' then
        if c4 = '=' ∧ rest = [] then some [v1 * 4 + v2 / 16] else none
      else
        match b64Value c3 with
        | some v3 =>
          if c4 = '=' then
            if rest = [] then
              some [v1 * 4 + v2 / 16, v2 % 16 * 16 + v3 / 4]
            else none
          else
            match b64Value c4 with
            | some v4 =>
              (b64DecodeList rest).map
                (fun bs => (v1 * 4 + v2 / 16) :: (v2 % 16 * 16 + v3 / 4) ::
                  (v3 % 4 * 64 + v4) :: bs)
            | none => none
        | none => none
    | _, _ => none
  | _ => none

/-! ### Pipe-delimited text (`str.split` / `str.join`) -/

/-- Python `s.split(sep)` for a single-character separator (empty parts
included; `"".split(sep) = ['']`). -/
def splitOnChar (sep : Char) : List Char → List (List Char)
  | [] => [[]]
  | c :: rest =>
    if c = sep then [] :: splitOnChar sep rest
    else
      match splitOnChar sep rest with
      | part :: parts => (c :: part) :: parts
      | [] => [[c]]

/-- Python `sep.join(parts)` for a single-character separator. -/
def joinChar (sep : Char) : List (List Char) → List Char
  | [] => []
  | [p] => p
  | p :: rest => p ++ sep :: joinChar sep rest

/-- Python `s.split(sep, 1)` used for `key=value` parts: `none` when the
separator does not occur. -/
def splitFirstEq : List Char → Option (List Char × List Char)
  | [] => none
  | c :: rest =>
    if c = '=' then some ([], rest)
    else (splitFirstEq rest).map (fun p => (c :: p.1, p.2))

/-! ### RFMP frames (`rfmpd/protocol/frames.py`)

Field strings are modelled as `List Char` (Python `str`).  A dataclass
constructor whose `__post_init__` can raise is modelled as a `make`
function returning `Option`. -/

/-- The `MSG` dataclass fields. -/
structure MSG where
  id : List Char
  fromNode : List Char
  timestamp : List Char
  channel : List Char
  priority : Int
  replyTo : Option (List Char)
  body : List Char
  deriving Repr, DecidableEq

/-- Python `s.islower()` (ASCII-exact; combined with the `isascii` check
below wherever the code uses it). -/
def pyIsLower (cs : List Char) : Bool :=
  cs.any (fun c => c.isLower) && cs.all (fun c => ¬ c.isUpper)

/-- Python `s.isascii()`. -/
def pyIsAscii (cs : List Char) : Bool := cs.all (fun c => c.toNat < 128)

/-- The `MSG.__post_init__` validation. -/
def MSG.valid (m : MSG) : Bool :=
  8 ≤ m.id.length && m.id.length ≤ 12 &&
  0 ≤ m.priority && m.priority ≤ 3 &&
  pyIsLower m.channel && pyIsAscii m.channel

/-- `MSG(...)`: `none` models the raised `ValueError`. -/
def MSG.make (i f t ch : List Char) (p : Int) (r : Option (List Char))
    (b : List Char) : Option MSG :=
  if MSG.valid ⟨i, f, t, ch, p, r, b⟩ then some ⟨i, f, t, ch, p, r, b⟩
  else none

/-- `MSG.to_dict` (insertion order preserved; `self.reply_to or '-'`
sends `-` for `None` and for the empty string). -/
def MSG.toDict (m : MSG) : List (List Char × List Char) :=
  [("id".data, m.id), ("from".data, m.fromNode), ("time".data, m.timestamp),
   ("chan".data, m.channel), ("prio".data, intToChars m.priority),
   ("reply".data, match m.replyTo with
     | none => ['-']
     | some r => if r = [] then ['-'] else r),
   ("body".data, m.body)]

/-- The `FRAG` dataclass fields (`data` is raw bytes). -/
structure FRAG where
  messageId : List Char
  idx : Int
  total : Int
  data : List Nat
  deriving Repr, DecidableEq

/-- `FRAG(...)`: `__post_init__` rejects `idx < 0` and `idx ≥ total`. -/
def FRAG.make (mid : List Char) (idx total : Int) (d : List Nat) :
    Option FRAG :=
  if idx < 0 ∨ total ≤ idx then none else some ⟨mid, idx, total, d⟩

/-- `FRAG.to_dict` (payload base64-encoded). -/
def FRAG.toDict (f : FRAG) : List (List Char × List Char) :=
  [("msgid".data, f.messageId), ("idx".data, intToChars f.idx),
   ("total".data, intToChars f.total), ("data".data, b64EncodeList f.data)]

/-- The `SYNC` dataclass fields. -/
structure SYNC where
  fromNode : List Char
  bloomFilters : List (List Nat)
  windowIndex : Int
  deriving Repr, DecidableEq

/-- `SYNC(...)`: exactly 3 filters, window index 0..2. -/
def SYNC.make (f : List Char) (bfs : List (List Nat)) (w : Int) :
    Option SYNC :=
  if bfs.length = 3 ∧ 0 ≤ w ∧ w ≤ 2 then some ⟨f, bfs, w⟩ else none

/-- `SYNC.to_dict`. -/
def SYNC.toDict (s : SYNC) : List (List Char × List Char) :=
  [("from".data, s.fromNode),
   ("bf0".data, b64EncodeList (s.bloomFilters.getD 0 [])),
   ("bf1".data, b64EncodeList (s.bloomFilters.getD 1 [])),
   ("bf2".data, b64EncodeList (s.bloomFilters.getD 2 [])),
   ("win".data, intToChars s.windowIndex)]

/-- The `REQ` dataclass fields (`__post_init__` performs no validation). -/
structure REQ where
  fromNode : List Char
  messageId : List Char
  missingFragments : Option (List Int)
  deriving Repr, DecidableEq

/-- `REQ.to_dict`: the `missing` key is present only when the list is
truthy (non-`None` and nonempty). -/
def REQ.toDict (r : REQ) : List (List Char × List Char) :=
  [("from".data, r.fromNode), ("msgid".data, r.messageId)] ++
  (match r.missingFragments with
   | some (x :: xs) =>
     [("missing".data, joinChar ',' ((x :: xs).map intToChars))]
   | _ => [])

/-- The tagged union of the four frame dataclasses. -/
inductive Frame where
  | msg (m : MSG)
  | frag (f : FRAG)
  | sync (s : SYNC)
  | req (r : REQ)
  deriving Repr, DecidableEq

/-- `frame.frame_type.value`. -/
def Frame.typeStr : Frame → List Char
  | .msg _ => "MSG".data
  | .frag _ => "FRAG".data
  | .sync _ => "SYNC".data
  | .req _ => "REQ".data

/-- `frame.to_dict()`. -/
def Frame.toDict : Frame → List (List Char × List Char)
  | .msg m => m.toDict
  | .frag f => f.toDict
  | .sync s => s.toDict
  | .req r => r.toDict


/-! ### RFMP frame parser (`rfmpd/protocol/parser.py`) -/

/-- The `key=value` parts of a decoded frame, in order (parts without `=`
are skipped). -/
def collectFields (parts : List (List Char)) :
    List (List Char × List Char) :=
  parts.filterMap splitFirstEq

/-- `fields[key]` with Python-dict semantics: the last assignment to a
key wins. -/
def fieldGet (fields : List (List Char × List Char)) (k : List Char) :
    Option (List Char) :=
  fields.reverse.lookup k

/-- `MSG.from_dict` (missing key, bad int or failed validation all raise
and yield `none` through the caller's catch-all). -/
def MSG.fromDict (fields : List (List Char × List Char)) : Option MSG :=
  match fieldGet fields "id".data, fieldGet fields "from".data,
      fieldGet fields "time".data, fieldGet fields "chan".data,
      fieldGet fields "prio".data, fieldGet fields "reply".data,
      fieldGet fields "body".data with
  | some i, some f, some t, some ch, some pr, some re, some bo =>
    match pyParseInt pr with
    | some p => MSG.make i f t ch p (if re = ['-'] then none else some re) bo
    | none => none
  | _, _, _, _, _, _, _ => none

/-- `FRAG.from_dict`. -/
def FRAG.fromDict (fields : List (List Char × List Char)) : Option FRAG :=
  match fieldGet fields "msgid".data, fieldGet fields "idx".data,
      fieldGet fields "total".data, fieldGet fields "data".data with
  | some mid, some ix, some tot, some d =>
    match pyParseInt ix, pyParseInt tot, b64DecodeList d with
    | some i, some t2, some bs => FRAG.make mid i t2 bs
    | _, _, _ => none
  | _, _, _, _ => none

/-- `SYNC.from_dict`. -/
def SYNC.fromDict (fields : List (List Char × List Char)) : Option SYNC :=
  match fieldGet fields "from".data, fieldGet fields "bf0".data,
      fieldGet fields "bf1".data, fieldGet fields "bf2".data,
      fieldGet fields "win".data with
  | some f, some d0, some d1, some d2, some w =>
    match b64DecodeList d0, b64DecodeList d1, b64DecodeList d2,
        pyParseInt w with
    | some x0, some x1, some x2, some wi => SYNC.make f [x0, x1, x2] wi
    | _, _, _, _ => none
  | _, _, _, _, _ => none

/-- `REQ.from_dict`. -/
def REQ.fromDict (fields : List (List Char × List Char)) : Option REQ :=
  match fieldGet fields "from".data, fieldGet fields "msgid".data with
  | some f, some mid =>
    match fieldGet fields "missing".data with
    | none => some ⟨f, mid, none⟩
    | some ms =>
      match (splitOnChar ',' ms).mapM pyParseInt with
      | some ints => some ⟨f, mid, some ints⟩
      | none => none
  | _, _ => none

/-- `FrameParser.encode` before the UTF-8 step:
`TYPE|key=value|key=value|...`. -/
def FrameParser.encodeText (f : Frame) : List Char :=
  joinChar '|' (f.typeStr :: f.toDict.map (fun kv => kv.1 ++ '=' :: kv.2))

/-- `FrameParser.encode`: the UTF-8 bytes of the wire text. -/
def FrameParser.encode (f : Frame) : List Nat :=
  utf8EncodeChars (FrameParser.encodeText f)

/-- `FrameParser.decode` after the UTF-8 step: split on `|`, dispatch on
the type tag, parse the fields; any failure yields `none`. -/
def FrameParser.decodeText (text : List Char) : Option Frame :=
  match splitOnChar '|' text with
  | [] => none
  | ty :: rest =>
    if rest = [] then none
    else if ty = "MSG".data then (MSG.fromDict (collectFields rest)).map .msg
    else if ty = "FRAG".data then
      (FRAG.fromDict (collectFields rest)).map .frag
    else if ty = "SYNC".data then
      (SYNC.fromDict (collectFields rest)).map .sync
    else if ty = "REQ".data then (REQ.fromDict (collectFields rest)).map .req
    else none

/-- `FrameParser.decode` over raw bytes. -/
def FrameParser.decode (bytes : List Nat) : Option Frame :=
  (utf8Decode bytes).bind FrameParser.decodeText

/-! ### Fragmenter (`rfmpd/protocol/fragmentation.py`) -/

/-- `FragmentCollector` (in-memory reassembly buffer). -/
structure FragmentCollector where
  messageId : List Char
  totalFragments : Int
  fragments : List (Int × List Nat)
  firstSeen : Int
  deriving Repr, DecidableEq

/-- `FragmentCollector.add_fragment`: `false` for a duplicate index.
(The mismatched-`message_id` `ValueError` cannot fire: callers look the
collector up under the fragment's own id.) -/
def FragmentCollector.addFragment (col : FragmentCollector) (f : FRAG) :
    Bool × FragmentCollector :=
  if (col.fragments.lookup f.idx).isSome then (false, col)
  else (true, { col with fragments := col.fragments ++ [(f.idx, f.data)] })

/-- `FragmentCollector.is_complete`. -/
def FragmentCollector.isComplete (col : FragmentCollector) : Bool :=
  (col.fragments.length : Int) = col.totalFragments

/-- `FragmentCollector.reassemble`: concatenate fragments `0..total-1` in
index order.  (A missing index despite a complete count — only possible
when fragments carried inconsistent totals — raises `KeyError` in Python
and is modelled as `none`.) -/
def FragmentCollector.reassemble (col : FragmentCollector) :
    Option (List Nat) :=
  if ¬ col.isComplete then none
  else
    ((List.range col.totalFragments.toNat).mapM
      (fun i => col.fragments.lookup (i : Int))).map List.flatten

/-- Replace-or-insert for the collectors dict. -/
def dictSet (k : List Char) (v : FragmentCollector)
    (d : List (List Char × FragmentCollector)) :
    List (List Char × FragmentCollector) :=
  if (d.lookup k).isSome then
    d.map (fun kv => if kv.1 = k then (k, v) else kv)
  else d ++ [(k, v)]

/-- `Fragmenter.add_fragment`: look up or create the collector, add the
fragment, and on completion reassemble and decode; a decoded `MSG`
removes the collector and is handed back. -/
def fragmenterAddFragment (now : Int) (f : FRAG)
    (collectors : List (List Char × FragmentCollector)) :
    Bool × Option MSG × List (List Char × FragmentCollector) :=
  let col := match collectors.lookup f.messageId with
    | some c => c
    | none => ⟨f.messageId, f.total, [], now⟩
  let r := col.addFragment f
  let collectors2 := dictSet f.messageId r.2 collectors
  if r.2.isComplete then
    match r.2.reassemble with
    | some data =>
      if data = [] then (r.1, none, collectors2)
      else
        match FrameParser.decode data with
        | some (.msg m) =>
          (r.1, some m, collectors2.filter (fun kv => kv.1 ≠ f.messageId))
        | _ => (r.1, none, collectors2)
    | none => (r.1, none, collectors2)
  else (r.1, none, collectors2)

/-- `Fragmenter.fragment_message`: no fragments when the encoded MSG fits
the threshold, else contiguous chunks of `threshold - 50` bytes.
(`threshold > 50` everywhere in the daemon; default 200.) -/
def fragmentMessage (threshold : Nat) (m : MSG) : List FRAG :=
  if (FrameParser.encode (.msg m)).length ≤ threshold then []
  else
    (List.range (((FrameParser.encode (.msg m)).length + (threshold - 50)
        - 1) / (threshold - 50))).map
      (fun (i : Nat) =>
        ⟨m.id, (i : Int),
         ((((FrameParser.encode (.msg m)).length + (threshold - 50) - 1)
           / (threshold - 50) : Nat) : Int),
         ((FrameParser.encode (.msg m)).drop (i * (threshold - 50))).take
           (threshold - 50)⟩)

/-! ### Orchestrator ingest handlers (`rfmpd/main.py`) and their store
(`rfmpd/storage/database.py`)

The store rows relevant to the dedup claims.  NOTE: the `seen_cache`
table's schema is `message_id TEXT PRIMARY KEY` — `fragment_idx` is a
plain column, so every conflict resolution keys on `message_id` alone. -/

/-- One `seen_cache` row. -/
structure SeenRow where
  messageId : List Char
  fragmentIdx : Option Int
  seenAt : Int
  rebroadcast : Bool
  deriving Repr, DecidableEq

/-- One `messages` row (the `raw_frame` debug string is not modelled). -/
structure MsgRow where
  id : List Char
  fromNode : List Char
  timestamp : List Char
  channel : List Char
  priority : Int
  replyTo : Option (List Char)
  body : List Char
  receivedAt : Int
  deriving Repr, DecidableEq

/-- One `fragments` row (composite primary key `(message_id, idx)`). -/
structure FragRow where
  messageId : List Char
  idx : Int
  total : Int
  data : List Nat
  receivedAt : Int
  deriving Repr, DecidableEq

/-- `Database.mark_seen_if_new`: `INSERT OR IGNORE` into `seen_cache`;
because the primary key is `message_id` alone, the insert is ignored
whenever ANY row with that `message_id` exists, whatever its
`fragment_idx`. -/
def markSeenIfNew (now : Int) (id : List Char) (idx : Option Int)
    (s : List SeenRow) : Bool × List SeenRow :=
  if s.any (fun r => r.messageId = id) then (false, s)
  else (true, s ++ [⟨id, idx, now, false⟩])

/-- `Database.mark_seen`: `INSERT OR REPLACE` (replaces the row with the
same `message_id`, if any). -/
def markSeen (now : Int) (id : List Char) (idx : Option Int) (reb : Bool)
    (s : List SeenRow) : List SeenRow :=
  if s.any (fun r => r.messageId = id) then
    s.map (fun r => if r.messageId = id then ⟨id, idx, now, reb⟩ else r)
  else s ++ [⟨id, idx, now, reb⟩]

/-- `Database.is_seen(id, fragment_idx=idx)`. -/
def isSeenFrag (id : List Char) (idx : Int) (s : List SeenRow) : Bool :=
  s.any (fun r => r.messageId = id ∧ r.fragmentIdx = some idx)

/-- `Database.is_seen(id, rebroadcast=True)`. -/
def isSeenReb (id : List Char) (s : List SeenRow) : Bool :=
  s.any (fun r => r.messageId = id ∧ r.fragmentIdx = none ∧ r.rebroadcast)

/-- `Database.save_message`: plain `INSERT`, duplicate primary key →
`IntegrityError` → `False`.  (Channel/node statistics updates are not
modelled; no claim mentions them.) -/
def saveMessage (now : Int) (m : MSG) (msgs : List MsgRow) :
    Bool × List MsgRow :=
  if msgs.any (fun r => r.id = m.id) then (false, msgs)
  else (true, msgs ++ [⟨m.id, m.fromNode, m.timestamp, m.channel,
    m.priority, m.replyTo, m.body, now⟩])

/-- `Database.save_fragment`: `INSERT` with composite key
`(message_id, idx)`. -/
def saveFragment (now : Int) (f : FRAG) (frs : List FragRow) :
    Bool × List FragRow :=
  if frs.any (fun r => r.messageId = f.messageId ∧ r.idx = f.idx) then
    (false, frs)
  else (true, frs ++ [⟨f.messageId, f.idx, f.total, f.data, now⟩])

/-- The daemon state the dedup claims speak about: the store tables, the
fragment collectors, the rotating Bloom filter, the number of WebSocket
pushes performed, and the number of rows queued for transmission.
(Node/channel/user statistics do not feed back into these.) -/
structure DaemonState where
  seenCache : List SeenRow
  messages : List MsgRow
  fragments : List FragRow
  collectors : List (List Char × FragmentCollector)
  bloom : RotatingBloomFilter
  notifications : Nat
  txQueue : Nat
  deriving Repr, DecidableEq

/-- A fresh daemon (all tables empty, default sync config). -/
def initDaemonState (t0 : Int) : DaemonState :=
  ⟨[], [], [], [], rbInit t0 600 3 256 3, 0, 0⟩

/-- `RFMPDaemon.handle_msg_frame`: atomically mark seen (drop when
duplicate), persist, add to the Bloom filter, push to subscribers, and
schedule a rebroadcast unless already flagged. -/
def handleMsgFrame (now : Int) (m : MSG) (st : DaemonState) : DaemonState :=
  match markSeenIfNew now m.id none st.seenCache with
  | (false, seen1) => { st with seenCache := seen1 }
  | (true, seen1) =>
    match saveMessage now m st.messages with
    | (false, msgs1) => { st with seenCache := seen1, messages := msgs1 }
    | (true, msgs1) =>
      if isSeenReb m.id seen1 then
        { st with
          seenCache := seen1,
          messages := msgs1,
          bloom := rbAdd now ⟨m.id⟩ st.bloom,
          notifications := st.notifications + 1 }
      else
        { st with
          seenCache := markSeen now m.id none true seen1,
          messages := msgs1,
          bloom := rbAdd now ⟨m.id⟩ st.bloom,
          notifications := st.notifications + 1,
          txQueue := st.txQueue + 1 }

/-- `RFMPDaemon.handle_frag_frame`: dedupe by `(msgid, idx)`, mark seen,
persist the fragment, feed the fragmenter, and hand a completed MSG to
`handle_msg_frame`. -/
def handleFragFrame (now : Int) (f : FRAG) (st : DaemonState) :
    DaemonState :=
  if isSeenFrag f.messageId f.idx st.seenCache then st
  else
    let st1 : DaemonState :=
      { st with
        seenCache := markSeen now f.messageId (some f.idx) false
          st.seenCache }
    let st2 : DaemonState :=
      { st1 with fragments := (saveFragment now f st1.fragments).2 }
    match fragmenterAddFragment now f st2.collectors with
    | (_, some m, cols2) => handleMsgFrame now m { st2 with collectors := cols2 }
    | (_, none, cols2) => { st2 with collectors := cols2 }

/-- Ingest a sequence of timed MSG frames. -/
def runMsgFrames (frames : List (Int × MSG)) (st : DaemonState) :
    DaemonState :=
  frames.foldl (fun s e => handleMsgFrame e.1 e.2 s) st

/-- Ingest a sequence of timed FRAG frames. -/
def runFragFrames (frames : List (Int × FRAG)) (st : DaemonState) :
    DaemonState :=
  frames.foldl (fun s e => handleFragFrame e.1 e.2 s) st


/-! ### Wire-safety side conditions for the codec round-trip

The encoder inserts field values verbatim between `|` delimiters, so the
round-trip can only hold for frames whose textual values contain no `|`
and whose `reply`/`missing` values do not collide with the encoder's
sentinel forms.  These predicates collect exactly those side conditions
(numeric and base64 fields are safe automatically, see the lemmas). -/

/-- Wire safety for a MSG. -/
def msgWireSafe (m : MSG) : Bool :=
  MSG.valid m && m.id.all (· ≠ '|') && m.fromNode.all (· ≠ '|') &&
  m.timestamp.all (· ≠ '|') && m.channel.all (· ≠ '|') &&
  m.body.all (· ≠ '|') &&
  (match m.replyTo with
   | none => true
   | some r => r ≠ ([] : List Char) && r ≠ ['-'] && r.all (· ≠ '|'))

/-- Wire safety for a FRAG (the payload must be genuine bytes). -/
def fragWireSafe (f : FRAG) : Bool :=
  !(f.idx < 0 || f.total ≤ f.idx) && f.messageId.all (· ≠ '|') &&
  f.data.all (· < 256)

/-- Wire safety for a SYNC. -/
def syncWireSafe (s : SYNC) : Bool :=
  s.bloomFilters.length = 3 && 0 ≤ s.windowIndex && s.windowIndex ≤ 2 &&
  s.fromNode.all (· ≠ '|') &&
  s.bloomFilters.all (fun bf => bf.all (· < 256))

/-- Wire safety for a REQ (`missing = []` is dropped by the encoder). -/
def reqWireSafe (r : REQ) : Bool :=
  r.fromNode.all (· ≠ '|') && r.messageId.all (· ≠ '|') &&
  r.missingFragments ≠ some ([] : List Int)

/-- Wire safety of a frame. -/
def wireSafe : Frame → Bool
  | .msg m => msgWireSafe m
  | .frag f => fragWireSafe f
  | .sync s => syncWireSafe s
  | .req r => reqWireSafe r

/-- A valid MSG whose body contains the delimiter `|`. -/
def msgPipeBody : MSG :=
  ⟨"abcd1234".data, "N0CALL".data, "20240101T000000Z".data, "general".data,
   1, none, "ab|cd".data⟩

/-- A wire-safe MSG used to instantiate the round-trip. -/
def msgWire : MSG :=
  ⟨"abcd1234".data, "N0CALL".data, "20240101T000000Z".data, "general".data,
   1, some "beefcafe".data, "hello world".data⟩

/-- A wire-safe MSG whose encoding (127 bytes) splits into three
fragments at the 100-byte threshold. -/
def msgC2 : MSG :=
  ⟨"abcd1234".data, "N0CALL".data, "20240101T000000Z".data, "general".data,
   1, none, "The quick brown fox jumps over the lazy dog!".data⟩

/-- The invariant `handle_msg_frame` maintains over the daemon state: no
two `messages` rows share an id, the `seen_cache` holds exactly the ids
of the stored messages, and the notification and transmission-queue
counters equal the number of stored messages. -/
def dedupInvariant (st : DaemonState) : Prop :=
  (st.messages.map MsgRow.id).Nodup ∧
  (∀ id : List Char,
    st.seenCache.any (fun r => r.messageId = id)
      = st.messages.any (fun r => r.id = id)) ∧
  st.notifications = st.messages.length ∧
  st.txQueue = st.messages.length

end Rfmpd

namespace Rfmpd

/-! ### Lemmas about the KISS codec -/

theorem kissEscape_cons_fend (l : List Nat) :
    kissEscape (FEND :: l) = FESC :: TFEND :: kissEscape l := by
  simp [kissEscape]

theorem kissEscape_cons_fesc (l : List Nat) :
    kissEscape (FESC :: l) = FESC :: TFESC :: kissEscape l := by
  simp [kissEscape, FESC, FEND, TFESC]

theorem kissEscape_cons_plain {b : Nat} (hb : b ≠ FEND) (hb2 : b ≠ FESC)
    (l : List Nat) : kissEscape (b :: l) = b :: kissEscape l := by
  simp [kissEscape, hb, hb2]

theorem kissUnescape_cons_plain {b : Nat} (hb : b ≠ FESC) (l : List Nat) :
    kissUnescape (b :: l) = (kissUnescape l).map (b :: ·) := by
  rw [kissUnescape.eq_def]
  simp [hb]

theorem kissUnescape_fesc_tfend (l : List Nat) :
    kissUnescape (FESC :: TFEND :: l) = (kissUnescape l).map (FEND :: ·) := by
  simp [kissUnescape, FESC, FEND, TFEND, TFESC]

theorem kissUnescape_fesc_tfesc (l : List Nat) :
    kissUnescape (FESC :: TFESC :: l) = (kissUnescape l).map (FESC :: ·) := by
  simp [kissUnescape, FESC, FEND, TFEND, TFESC]

theorem kissEscape_not_fend {l : List Nat} {x : Nat}
    (hx : x ∈ kissEscape l) : x ≠ FEND := by
  induction l with
  | nil => simp [kissEscape] at hx
  | cons b rest ih =>
    by_cases hb : b = FEND
    · subst hb
      rw [kissEscape_cons_fend] at hx
      rcases List.mem_cons.mp hx with h | hx2
      · subst h; decide
      · rcases List.mem_cons.mp hx2 with h | h3
        · subst h; decide
        · exact ih h3
    · by_cases hb2 : b = FESC
      · subst hb2
        rw [kissEscape_cons_fesc] at hx
        rcases List.mem_cons.mp hx with h | hx2
        · subst h; decide
        · rcases List.mem_cons.mp hx2 with h | h3
          · subst h; decide
          · exact ih h3
      · rw [kissEscape_cons_plain hb hb2] at hx
        rcases List.mem_cons.mp hx with h | h3
        · subst h; exact hb
        · exact ih h3

theorem kissUnescape_kissEscape (l : List Nat) :
    kissUnescape (kissEscape l) = some l := by
  induction l with
  | nil => rfl
  | cons b rest ih =>
    by_cases hb : b = FEND
    · subst hb
      rw [kissEscape_cons_fend, kissUnescape_fesc_tfend, ih]
      rfl
    · by_cases hb2 : b = FESC
      · subst hb2
        rw [kissEscape_cons_fesc, kissUnescape_fesc_tfesc, ih]
        rfl
      · rw [kissEscape_cons_plain hb hb2, kissUnescape_cons_plain hb2, ih]
        rfl

theorem kissEscape_ne_nil (b : Nat) (l : List Nat) :
    kissEscape (b :: l) ≠ [] := by
  by_cases hb : b = FEND
  · subst hb; rw [kissEscape_cons_fend]; simp
  · by_cases hb2 : b = FESC
    · subst hb2; rw [kissEscape_cons_fesc]; simp
    · rw [kissEscape_cons_plain hb hb2]; simp

/-- Decoding an encoded data frame (the two delimiting `FEND`s included)
recovers the command byte and the payload. -/
theorem KISSFrame.decode_encode_data (b : List Nat) :
    KISSFrame.decode (FEND :: (kissEscape (0 :: b) ++ [FEND]))
      = .ok (some ⟨0, 0, b⟩) := by
  have hne : kissEscape (0 :: b) ≠ [] := kissEscape_ne_nil 0 b
  have h1 : stripLeadFEND (FEND :: (kissEscape (0 :: b) ++ [FEND]))
      = kissEscape (0 :: b) ++ [FEND] := by
    simp [stripLeadFEND]
  have h2 : stripTrailFEND (kissEscape (0 :: b) ++ [FEND])
      = kissEscape (0 :: b) := by
    simp [stripTrailFEND]
  have h3 : decodeCore (kissEscape (0 :: b)) = .ok (some ⟨0, 0, b⟩) := by
    unfold decodeCore
    rw [if_neg hne, kissUnescape_kissEscape (0 :: b)]
    rfl
  unfold KISSFrame.decode
  rw [if_neg (by simp), h1, h2, h3]

theorem takeWhile_append_of_all {p : Nat → Bool} {l : List Nat} {a : Nat}
    (r : List Nat) (h : ∀ x ∈ l, p x = true) (ha : p a = false) :
    (l ++ a :: r).takeWhile p = l := by
  induction l with
  | nil => simp [List.takeWhile_cons, ha]
  | cons x xs ih =>
    have hx : p x = true := h x (by simp)
    simp [List.cons_append, List.takeWhile_cons, hx,
      ih (fun y hy => h y (by simp [hy]))]

theorem dropWhile_append_of_all {p : Nat → Bool} {l : List Nat} {a : Nat}
    (r : List Nat) (h : ∀ x ∈ l, p x = true) (ha : p a = false) :
    (l ++ a :: r).dropWhile p = a :: r := by
  induction l with
  | nil => simp [List.dropWhile_cons, ha]
  | cons x xs ih =>
    have hx : p x = true := h x (by simp)
    simp [List.cons_append, List.dropWhile_cons, hx,
      ih (fun y hy => h y (by simp [hy]))]

theorem decodeFramesLoop_nil (fuel : Nat) :
    decodeFramesLoop fuel [] = .ok ([], []) := by
  cases fuel <;> rfl

/-- Feeding one complete encoded data frame through the stateful decoder
loop yields exactly that frame and an empty buffer. -/
theorem decodeFramesLoop_encoded (b : List Nat) (fuel : Nat) :
    decodeFramesLoop (fuel + 1) (FEND :: (kissEscape (0 :: b) ++ [FEND]))
      = .ok ([⟨0, 0, b⟩], []) := by
  have hesc : ∀ x ∈ kissEscape (0 :: b), (decide (x ≠ FEND)) = true := by
    intro x hx
    simp [kissEscape_not_fend hx]
  have hfend : (decide (FEND ≠ FEND)) = false := by simp
  have hdrop1 : (FEND :: (kissEscape (0 :: b) ++ [FEND])).dropWhile
      (fun x => decide (x ≠ FEND)) = FEND :: (kissEscape (0 :: b) ++ [FEND]) := by
    simp [List.dropWhile_cons]
  have htake : (kissEscape (0 :: b) ++ [FEND]).takeWhile
      (fun x => decide (x ≠ FEND)) = kissEscape (0 :: b) :=
    takeWhile_append_of_all [] hesc hfend
  have hdrop2 : (kissEscape (0 :: b) ++ [FEND]).dropWhile
      (fun x => decide (x ≠ FEND)) = [FEND] :=
    dropWhile_append_of_all [] hesc hfend
  rw [decodeFramesLoop.eq_def]
  simp only [hdrop1, htake, hdrop2]
  rw [KISSFrame.decode_encode_data b, decodeFramesLoop_nil fuel]
  rfl

end Rfmpd

namespace Rfmpd

/-! ### Claim theorems for the KISS codec -/

/-- C7.  KISS escape round-trip: for every byte string `b` (including ones
containing `0xC0` and `0xDB`), encoding `b` as a KISS data frame and then
feeding the resulting bytes to the stateful frame decoder yields exactly
one frame, whose payload equals `b`. -/
theorem kiss_encode_decode_roundtrip (b : List Nat) :
    KISSProtocol.decodeFrames [] (KISSProtocol.encodeData 0 b)
      = .ok ([⟨0, 0, b⟩], []) := by
  have hcmd : (0 <<< 4 ||| 0 : Nat) = 0 := by decide
  have henc : KISSProtocol.encodeData 0 b
      = FEND :: (kissEscape (0 :: b) ++ [FEND]) := by
    unfold KISSProtocol.encodeData KISSFrame.encode
    simp [hcmd]
  unfold KISSProtocol.decodeFrames
  rw [List.nil_append, henc]
  exact decodeFramesLoop_encoded b _

/-- C8.  The claim says `KISSProtocol.decode_frames` never raises whatever
bytes it receives; in fact a KISS frame whose command nibble is not a
`KISSCommand` member (here `0x07`) makes `KISSCommand(cmd_byte & 0x0F)`
raise `ValueError`, which propagates out of `decode_frames`. -/
theorem kiss_decodeFrames_raises_on_bad_nibble :
    KISSProtocol.decodeFrames [] [0xC0, 0x07, 0xC0] = .error () := by
  rfl

end Rfmpd

namespace Rfmpd

/-! ### Lemmas about the transmission queue -/

theorem txSelect_cons (a : TxRow) (rest : List TxRow) :
    txSelect (a :: rest) =
      match txSelect rest with
      | none => some a
      | some s =>
        if a.priority < s.priority ∨
            (s.priority = a.priority ∧ s.scheduledAt < a.scheduledAt) then
          some s
        else
          some a := rfl

theorem txSelect_cons_of_none {rest : List TxRow} (a : TxRow)
    (hs : txSelect rest = none) : txSelect (a :: rest) = some a := by
  rw [txSelect_cons, hs]

theorem txSelect_cons_of_some {rest : List TxRow} {s : TxRow} (a : TxRow)
    (hs : txSelect rest = some s) :
    txSelect (a :: rest) =
      if a.priority < s.priority ∨
          (s.priority = a.priority ∧ s.scheduledAt < a.scheduledAt) then
        some s
      else
        some a := by
  rw [txSelect_cons, hs]

theorem txSelect_eq_none {l : List TxRow} (h : txSelect l = none) : l = [] := by
  cases l with
  | nil => rfl
  | cons a rest =>
    rcases hs : txSelect rest with _ | s
    · rw [txSelect_cons_of_none a hs] at h
      exact absurd h (by simp)
    · rw [txSelect_cons_of_some a hs] at h
      by_cases hc : a.priority < s.priority ∨
          (s.priority = a.priority ∧ s.scheduledAt < a.scheduledAt)
      · rw [if_pos hc] at h; exact absurd h (by simp)
      · rw [if_neg hc] at h; exact absurd h (by simp)

theorem txSelect_mem {l : List TxRow} {r : TxRow} (h : txSelect l = some r) :
    r ∈ l := by
  induction l with
  | nil => exact absurd h (by simp [txSelect])
  | cons a rest ih =>
    rcases hs : txSelect rest with _ | s
    · rw [txSelect_cons_of_none a hs] at h
      cases h; exact List.mem_cons_self _ _
    · rw [txSelect_cons_of_some a hs] at h
      by_cases hc : a.priority < s.priority ∨
          (s.priority = a.priority ∧ s.scheduledAt < a.scheduledAt)
      · rw [if_pos hc] at h; cases h
        exact List.mem_cons_of_mem a (ih hs)
      · rw [if_neg hc] at h; cases h
        exact List.mem_cons_self _ _

theorem txSelect_best {l : List TxRow} :
    ∀ {r : TxRow}, txSelect l = some r →
      ∀ x ∈ l, x.priority ≤ r.priority ∧
        (x.priority = r.priority → r.scheduledAt ≤ x.scheduledAt) := by
  induction l with
  | nil => intro r h; exact absurd h (by simp [txSelect])
  | cons a rest ih =>
    intro r h
    rcases hs : txSelect rest with _ | s
    · have hrest : rest = [] := txSelect_eq_none hs
      rw [txSelect_cons_of_none a hs] at h
      cases h
      subst hrest
      intro x hx
      rcases List.mem_cons.mp hx with hx | hx
      · subst hx; exact ⟨le_refl _, fun _ => le_refl _⟩
      · exact absurd hx (by simp)
    · rw [txSelect_cons_of_some a hs] at h
      by_cases hc : a.priority < s.priority ∨
          (s.priority = a.priority ∧ s.scheduledAt < a.scheduledAt)
      · rw [if_pos hc] at h
        cases h
        intro x hx
        rcases List.mem_cons.mp hx with hx | hx
        · subst hx
          rcases hc with hc | hc
          · exact ⟨le_of_lt hc, fun he => absurd he (by omega)⟩
          · exact ⟨le_of_eq hc.1.symm, fun _ => le_of_lt hc.2⟩
        · exact ih hs x hx
      · rw [if_neg hc] at h
        cases h
        push_neg at hc
        intro x hx
        rcases List.mem_cons.mp hx with hx | hx
        · subst hx; exact ⟨le_refl _, fun _ => le_refl _⟩
        · have hxs := ih hs x hx
          refine ⟨le_trans hxs.1 hc.1, fun he => ?_⟩
          have hsp : s.priority = x.priority := by omega
          have h1 : s.scheduledAt ≤ x.scheduledAt := hxs.2 hsp.symm
          have h2 := hc.2 (by omega)
          omega

/-! ### Claim theorems for AX.25 and the transmission queue -/

/-- C10 counterexample.  The claim says the constructor rejects callsigns
outside length 1..6; in fact `AX25Address("")` is accepted, since
`__post_init__` only rejects callsigns *longer* than 6 characters (and
never checks the character set). -/
theorem ax25_accepts_empty_callsign :
    AX25Address.make "" 0 = .ok ⟨"", 0⟩ := by
  unfold AX25Address.make
  rw [if_neg (by decide), if_neg (by decide)]
  rw [show upperStr "" = "" from by decide]

/-- C10 (amended).  Every `AX25Address` the constructor accepts has a
callsign of at most 6 characters (uppercased; possibly empty, and with no
character-set restriction) and exactly the SSID passed in, which lies in
0..15; conversely, a callsign longer than 6 characters or an SSID outside
0..15 is rejected with `ValueError`. -/
theorem ax25_make_accepted_bounds (callsign : String) (ssid : Int) :
    (∀ a : AX25Address, AX25Address.make callsign ssid = .ok a →
      a.callsign.length ≤ 6 ∧ 0 ≤ a.ssid ∧ a.ssid ≤ 15 ∧
      a.callsign = upperStr callsign ∧ a.ssid = ssid) ∧
    (6 < callsign.length ∨ ssid < 0 ∨ 15 < ssid →
      ∃ e, AX25Address.make callsign ssid = .error e) := by
  have hlen : (upperStr callsign).length = callsign.length := by
    show (callsign.data.map Char.toUpper).length = callsign.data.length
    simp
  constructor
  · intro a h
    unfold AX25Address.make at h
    by_cases h1 : 6 < (upperStr callsign).length
    · rw [if_pos h1] at h
      exact absurd h (by simp)
    · rw [if_neg h1] at h
      by_cases h2 : 0 ≤ ssid ∧ ssid ≤ 15
      · rw [if_neg (not_not_intro h2)] at h
        cases h
        refine ⟨?_, h2.1, h2.2, rfl, rfl⟩
        show (upperStr callsign).length ≤ 6
        omega
      · rw [if_pos h2] at h
        exact absurd h (by simp)
  · intro hbad
    unfold AX25Address.make
    by_cases h1 : 6 < (upperStr callsign).length
    · rw [if_pos h1]
      exact ⟨_, rfl⟩
    · rw [if_neg h1]
      rw [hlen] at h1
      have h2 : ¬ (0 ≤ ssid ∧ ssid ≤ 15) := by omega
      rw [if_pos h2]
      exact ⟨_, rfl⟩

theorem ax25_make_accepted_bounds_witness :
    ("N0CALL".length ≤ 6 ∧ (0 : Int) ≤ 3 ∧ (3 : Int) ≤ 15 ∧
      "N0CALL" = upperStr "n0call" ∧ (3 : Int) = 3) ∧
    (∃ e, AX25Address.make "n0call" 20 = .error e) :=
  ⟨(ax25_make_accepted_bounds "n0call" 3).1 ⟨"N0CALL", 3⟩ (by
      unfold AX25Address.make
      rw [if_neg (by decide), if_neg (by decide)]
      rw [show upperStr "n0call" = "N0CALL" from by decide]),
    (ax25_make_accepted_bounds "n0call" 20).2
      (Or.inr (Or.inr (by decide)))⟩

/-- C4.  Whenever the transmission queue holds eligible pending rows,
`get_next_transmission` returns an eligible pending row with the highest
numeric priority, breaking ties by earliest `scheduled_at`; it marks the
returned row `transmitting`, and a subsequent call can never return the
same row again. -/
theorem get_next_transmission_spec (now : Int) (q : List TxRow) (r : TxRow)
    (q2 : List TxRow) (h : getNextTransmission now q = (some r, q2)) :
    (r ∈ q ∧ r.status = "pending" ∧ r.scheduledAt ≤ now) ∧
    (∀ x ∈ q, txEligible now x → x.priority ≤ r.priority ∧
      (x.priority = r.priority → r.scheduledAt ≤ x.scheduledAt)) ∧
    (∀ x ∈ q2, x.id = r.id → x.status = "transmitting") ∧
    (∀ now2 r2 q3, getNextTransmission now2 q2 = (some r2, q3) →
      r2.id ≠ r.id) := by
  unfold getNextTransmission at h
  rcases hs : txSelect (q.filter (txEligible now)) with _ | s <;> rw [hs] at h
  · exact absurd h (by simp)
  · have hr : s = r := by
      have := congrArg Prod.fst h
      simpa using this
    subst hr
    have hq2 : q2 = q.map (fun x =>
        if x.id = s.id then { x with status := "transmitting" } else x) := by
      have := congrArg Prod.snd h
      simpa using this.symm
    have hmemf : s ∈ q.filter (txEligible now) := txSelect_mem hs
    have hmem : s ∈ q := List.mem_of_mem_filter hmemf
    have helig : txEligible now s = true := List.of_mem_filter hmemf
    have helig2 : s.status = "pending" ∧ s.scheduledAt ≤ now := by
      simpa [txEligible] using helig
    have hmark : ∀ x ∈ q2, x.id = s.id → x.status = "transmitting" := by
      intro x hx hid
      subst hq2
      rcases List.mem_map.mp hx with ⟨y, _, hy⟩
      by_cases hyid : y.id = s.id
      · rw [if_pos hyid] at hy; rw [← hy]
      · rw [if_neg hyid] at hy
        subst hy
        exact absurd hid hyid
    refine ⟨⟨hmem, helig2.1, helig2.2⟩, ?_, hmark, ?_⟩
    · intro x hx hex
      exact txSelect_best hs x (List.mem_filter.mpr ⟨hx, hex⟩)
    · intro now2 r2 q3 h2
      unfold getNextTransmission at h2
      rcases hs2 : txSelect (q2.filter (txEligible now2)) with _ | s2 <;>
        rw [hs2] at h2
      · exact absurd h2 (by simp)
      · have hr2 : s2 = r2 := by
          have := congrArg Prod.fst h2
          simpa using this
        subst hr2
        have hmemf2 : s2 ∈ q2.filter (txEligible now2) := txSelect_mem hs2
        have hmem2 : s2 ∈ q2 := List.mem_of_mem_filter hmemf2
        have helig3 : txEligible now2 s2 = true := List.of_mem_filter hmemf2
        have hpend : s2.status = "pending" := by
          have := helig3
          simp [txEligible] at this
          exact this.1
        intro hid
        have := hmark s2 hmem2 hid
        rw [this] at hpend
        exact absurd hpend (by decide)

theorem get_next_transmission_spec_witness :
    ((⟨1, "MSG", "d", 1, 0, 0, 0, "pending"⟩ : TxRow) ∈
        ([⟨1, "MSG", "d", 1, 0, 0, 0, "pending"⟩] : List TxRow) ∧
      (⟨1, "MSG", "d", 1, 0, 0, 0, "pending"⟩ : TxRow).status = "pending" ∧
      (⟨1, "MSG", "d", 1, 0, 0, 0, "pending"⟩ : TxRow).scheduledAt ≤ 0) :=
  (get_next_transmission_spec 0 [⟨1, "MSG", "d", 1, 0, 0, 0, "pending"⟩]
    ⟨1, "MSG", "d", 1, 0, 0, 0, "pending"⟩
    [⟨1, "MSG", "d", 1, 0, 0, 0, "transmitting"⟩] (by rfl)).1

end Rfmpd

namespace Rfmpd

/-! ### Lemmas about the Bloom filter bit array -/

theorem testBit_of_testBloomBit {bs : List Nat} {pos : Nat}
    (h : testBloomBit bs pos = true) :
    (bs.getD (pos / 8) 0).testBit (pos % 8) = true := by
  have h2 : bs.getD (pos / 8) 0 &&& (1 <<< (pos % 8)) ≠ 0 := by
    simpa [testBloomBit] using h
  rw [Nat.one_shiftLeft, Nat.and_two_pow] at h2
  by_contra hc
  simp only [Bool.not_eq_true] at hc
  rw [hc] at h2
  simp at h2

theorem testBloomBit_of_testBit {bs : List Nat} {pos : Nat}
    (h : (bs.getD (pos / 8) 0).testBit (pos % 8) = true) :
    testBloomBit bs pos = true := by
  have h2 : bs.getD (pos / 8) 0 &&& (1 <<< (pos % 8)) ≠ 0 := by
    rw [Nat.one_shiftLeft, Nat.and_two_pow, h]
    simp
  simpa [testBloomBit] using h2

theorem setBloomBit_grows {bs : List Nat} {p : Nat} (i k : Nat)
    (h : (bs.getD i 0).testBit k = true) :
    ((setBloomBit bs p).getD i 0).testBit k = true := by
  unfold setBloomBit
  by_cases hlen : p / 8 < bs.length
  · by_cases hij : p / 8 = i
    · subst hij
      have hset : (bs.set (p / 8) (bs.getD (p / 8) 0 ||| (1 <<< (p % 8)))).getD
          (p / 8) 0 = bs.getD (p / 8) 0 ||| (1 <<< (p % 8)) := by
        simp [List.getD, List.getElem?_set_self, hlen]
      rw [hset, Nat.testBit_or, h]
      simp
    · have hset : (bs.set (p / 8) (bs.getD (p / 8) 0 ||| (1 <<< (p % 8)))).getD
          i 0 = bs.getD i 0 := by
        simp [List.getD, List.getElem?_set_ne hij]
      rw [hset]
      exact h
  · rw [List.set_eq_of_length_le (le_of_not_lt hlen)]
    exact h

theorem setBloomBit_length (bs : List Nat) (p : Nat) :
    (setBloomBit bs p).length = bs.length := by
  unfold setBloomBit
  exact List.length_set ..

theorem setBloomBit_self {bs : List Nat} {p : Nat} (hlen : p / 8 < bs.length) :
    ((setBloomBit bs p).getD (p / 8) 0).testBit (p % 8) = true := by
  unfold setBloomBit
  have hset : (bs.set (p / 8) (bs.getD (p / 8) 0 ||| (1 <<< (p % 8)))).getD
      (p / 8) 0 = bs.getD (p / 8) 0 ||| (1 <<< (p % 8)) := by
    simp [List.getD, List.getElem?_set_self, hlen]
  rw [hset, Nat.testBit_or, Nat.one_shiftLeft, Nat.testBit_two_pow_self]
  simp

theorem foldl_setBloomBit_grows (f : Nat → Nat) (seeds : List Nat)
    {bs : List Nat} {i k : Nat} (h : (bs.getD i 0).testBit k = true) :
    ((seeds.foldl (fun bs seed => setBloomBit bs (f seed)) bs).getD i 0).testBit
      k = true := by
  induction seeds generalizing bs with
  | nil => simpa using h
  | cons a rest ih =>
    rw [List.foldl_cons]
    exact ih (setBloomBit_grows i k h)

theorem foldl_setBloomBit_length (f : Nat → Nat) (seeds : List Nat)
    (bs : List Nat) :
    (seeds.foldl (fun bs seed => setBloomBit bs (f seed)) bs).length
      = bs.length := by
  induction seeds generalizing bs with
  | nil => rfl
  | cons a rest ih =>
    rw [List.foldl_cons, ih, setBloomBit_length]

theorem foldl_setBloomBit_sets (f : Nat → Nat) (seeds : List Nat)
    {bs : List Nat} (hlen : ∀ s ∈ seeds, f s / 8 < bs.length) :
    ∀ s ∈ seeds,
      ((seeds.foldl (fun bs seed => setBloomBit bs (f seed)) bs).getD
        (f s / 8) 0).testBit (f s % 8) = true := by
  induction seeds generalizing bs with
  | nil => intro s hs; exact absurd hs (by simp)
  | cons a rest ih =>
    intro s hs
    rw [List.foldl_cons]
    rcases List.mem_cons.mp hs with hs | hs
    · subst hs
      exact foldl_setBloomBit_grows f rest (setBloomBit_self (hlen s (by simp)))
    · refine ih (fun t ht => ?_) s hs
      rw [setBloomBit_length]
      exact hlen t (by simp [ht])

/-! ### Lemmas about `BloomFilter.add` / `contains` -/

theorem bloomContains_bloomAdd_self (bf : BloomFilter) (item : String)
    (hpos : 0 < bf.numBits) (hmod : bf.numBits % 8 = 0)
    (hlen : bf.bits.length = bf.numBits / 8) :
    bloomContains (bloomAdd bf item) item = true := by
  unfold bloomContains
  refine List.all_eq_true.mpr ?_
  intro seed hseed
  have hrange : ∀ s : Nat, bloomBitPos bf item s / 8 < bf.bits.length := by
    intro s
    have h1 : bloomBitPos bf item s < bf.numBits := Nat.mod_lt _ hpos
    have h2 : bloomBitPos bf item s / 8 < bf.numBits / 8 :=
      Nat.div_lt_div_of_lt_of_dvd (Nat.dvd_of_mod_eq_zero hmod) h1
    rw [hlen]
    exact h2
  have hset := foldl_setBloomBit_sets (bloomBitPos bf item)
    (List.range bf.numHashes) (fun s _ => hrange s) seed hseed
  exact testBloomBit_of_testBit hset

theorem bloomContains_mono (bf : BloomFilter) (x y : String)
    (h : bloomContains bf x = true) :
    bloomContains (bloomAdd bf y) x = true := by
  unfold bloomContains at h ⊢
  refine List.all_eq_true.mpr ?_
  intro seed hseed
  have hb := List.all_eq_true.mp h seed hseed
  have hbit := testBit_of_testBloomBit hb
  have hgrow := foldl_setBloomBit_grows (bloomBitPos bf y)
    (List.range bf.numHashes) hbit
  exact testBloomBit_of_testBit hgrow

/-! ### Lemmas about the rotating filter -/

theorem rbContains_snd (now : Int) (item : String)
    (rb : RotatingBloomFilter) :
    (rbContains now item rb).2 = rotateIfNeeded now rb := rfl

theorem rotateIfNeeded_eq_of_none {now : Int} {rb : RotatingBloomFilter}
    (h : rb.windows.getLast? = none) : rotateIfNeeded now rb = rb := by
  unfold rotateIfNeeded
  simp only [h]

theorem rotateIfNeeded_eq_of_stale {now : Int} {rb : RotatingBloomFilter}
    {w : Int × BloomFilter} (h : rb.windows.getLast? = some w)
    (hc : rb.windowDuration * rb.windowCount < now - w.1) :
    rotateIfNeeded now rb =
      { rb with
        windows := (now, emptyBloom rb.bloomBits rb.bloomHashes)
          :: rb.windows.dropLast,
        currentWindowIndex := (rb.currentWindowIndex + 1) % rb.windowCount } := by
  unfold rotateIfNeeded
  simp only [h]
  rw [if_pos hc]

theorem rotateIfNeeded_eq_of_fresh {now : Int} {rb : RotatingBloomFilter}
    {w : Int × BloomFilter} (h : rb.windows.getLast? = some w)
    (hc : ¬ rb.windowDuration * rb.windowCount < now - w.1) :
    rotateIfNeeded now rb = rb := by
  unfold rotateIfNeeded
  simp only [h]
  rw [if_neg hc]

theorem rotateIfNeeded_witness {s0 : Int} {x : String} {now : Int}
    {rb : RotatingBloomFilter} (hP : rbWitness s0 x rb)
    (hnow : now ≤ s0 + rb.windowDuration * rb.windowCount) :
    rbWitness s0 x (rotateIfNeeded now rb) := by
  rcases hlast : rb.windows.getLast? with _ | w
  · rw [rotateIfNeeded_eq_of_none hlast]
    exact hP
  · by_cases hc : rb.windowDuration * rb.windowCount < now - w.1
    · rw [rotateIfNeeded_eq_of_stale hlast hc]
      obtain ⟨wit, hmem, hws, hwc⟩ := hP
      have hsplit : rb.windows.dropLast ++ [w] = rb.windows :=
        List.dropLast_append_getLast? w (Option.mem_def.mpr hlast)
      have hcases : wit ∈ rb.windows.dropLast ∨ wit = w := by
        rw [← hsplit] at hmem
        rcases List.mem_append.mp hmem with hmem | hmem
        · exact Or.inl hmem
        · exact Or.inr (List.mem_singleton.mp hmem)
      rcases hcases with hin | heq
      · exact ⟨wit, List.mem_cons_of_mem _ hin, hws, hwc⟩
      · subst heq
        rw [hws] at hc
        omega
    · rw [rotateIfNeeded_eq_of_fresh hlast hc]
      exact hP

theorem rotateIfNeeded_windowDuration (now : Int) (rb : RotatingBloomFilter) :
    (rotateIfNeeded now rb).windowDuration = rb.windowDuration := by
  rcases hlast : rb.windows.getLast? with _ | w
  · rw [rotateIfNeeded_eq_of_none hlast]
  · by_cases hc : rb.windowDuration * rb.windowCount < now - w.1
    · rw [rotateIfNeeded_eq_of_stale hlast hc]
    · rw [rotateIfNeeded_eq_of_fresh hlast hc]

theorem rotateIfNeeded_windowCount (now : Int) (rb : RotatingBloomFilter) :
    (rotateIfNeeded now rb).windowCount = rb.windowCount := by
  rcases hlast : rb.windows.getLast? with _ | w
  · rw [rotateIfNeeded_eq_of_none hlast]
  · by_cases hc : rb.windowDuration * rb.windowCount < now - w.1
    · rw [rotateIfNeeded_eq_of_stale hlast hc]
    · rw [rotateIfNeeded_eq_of_fresh hlast hc]

theorem rbAdd_eq_of_cons {now : Int} {item : String}
    {rb : RotatingBloomFilter} {w : Int × BloomFilter}
    {rest : List (Int × BloomFilter)}
    (h : (rotateIfNeeded now rb).windows = w :: rest) :
    rbAdd now item rb =
      { rotateIfNeeded now rb with
        windows := (w.1, bloomAdd w.2 item) :: rest } := by
  unfold rbAdd
  simp only [h]

theorem rbAdd_eq_of_nil {now : Int} {item : String}
    {rb : RotatingBloomFilter}
    (h : (rotateIfNeeded now rb).windows = []) :
    rbAdd now item rb = rotateIfNeeded now rb := by
  unfold rbAdd
  simp only [h]

theorem rbAdd_witness {s0 : Int} {x : String} {now : Int} {y : String}
    {rb : RotatingBloomFilter} (hP : rbWitness s0 x rb)
    (hnow : now ≤ s0 + rb.windowDuration * rb.windowCount) :
    rbWitness s0 x (rbAdd now y rb) := by
  have hP2 : rbWitness s0 x (rotateIfNeeded now rb) :=
    rotateIfNeeded_witness hP hnow
  rcases hw : (rotateIfNeeded now rb).windows with _ | ⟨w, rest⟩
  · rw [rbAdd_eq_of_nil hw]
    exact hP2
  · rw [rbAdd_eq_of_cons hw]
    obtain ⟨wit, hmem, hws, hwc⟩ := hP2
    rw [hw] at hmem
    rcases List.mem_cons.mp hmem with heq | hin
    · subst heq
      exact ⟨(wit.1, bloomAdd wit.2 y), List.mem_cons_self _ _, hws,
        bloomContains_mono wit.2 x y hwc⟩
    · exact ⟨wit, List.mem_cons_of_mem _ hin, hws, hwc⟩

theorem rbAdd_windowDuration (now : Int) (item : String)
    (rb : RotatingBloomFilter) :
    (rbAdd now item rb).windowDuration = rb.windowDuration := by
  rcases hw : (rotateIfNeeded now rb).windows with _ | ⟨w, rest⟩
  · rw [rbAdd_eq_of_nil hw, rotateIfNeeded_windowDuration]
  · rw [rbAdd_eq_of_cons hw]
    exact rotateIfNeeded_windowDuration now rb

theorem rbAdd_windowCount (now : Int) (item : String)
    (rb : RotatingBloomFilter) :
    (rbAdd now item rb).windowCount = rb.windowCount := by
  rcases hw : (rotateIfNeeded now rb).windows with _ | ⟨w, rest⟩
  · rw [rbAdd_eq_of_nil hw, rotateIfNeeded_windowCount]
  · rw [rbAdd_eq_of_cons hw]
    exact rotateIfNeeded_windowCount now rb

theorem rbStep_windowDuration (rb : RotatingBloomFilter) (op : RBOp) :
    (rbStep rb op).windowDuration = rb.windowDuration := by
  cases op with
  | add t item => exact rbAdd_windowDuration t item rb
  | query t item =>
    show ((rbContains t item rb).2).windowDuration = rb.windowDuration
    rw [rbContains_snd]
    exact rotateIfNeeded_windowDuration t rb

theorem rbStep_windowCount (rb : RotatingBloomFilter) (op : RBOp) :
    (rbStep rb op).windowCount = rb.windowCount := by
  cases op with
  | add t item => exact rbAdd_windowCount t item rb
  | query t item =>
    show ((rbContains t item rb).2).windowCount = rb.windowCount
    rw [rbContains_snd]
    exact rotateIfNeeded_windowCount t rb

theorem rbStep_witness {s0 : Int} {x : String} {rb : RotatingBloomFilter}
    {op : RBOp} (hP : rbWitness s0 x rb)
    (hop : op.time ≤ s0 + rb.windowDuration * rb.windowCount) :
    rbWitness s0 x (rbStep rb op) := by
  cases op with
  | add t item => exact rbAdd_witness hP hop
  | query t item =>
    show rbWitness s0 x ((rbContains t item rb).2)
    rw [rbContains_snd]
    exact rotateIfNeeded_witness hP hop

theorem rbRun_witness {s0 : Int} {x : String} (ops : List RBOp)
    (rb : RotatingBloomFilter) (hP : rbWitness s0 x rb)
    (hops : ∀ op ∈ ops, op.time ≤ s0 + rb.windowDuration * rb.windowCount) :
    rbWitness s0 x (rbRun ops rb) := by
  induction ops generalizing rb with
  | nil => exact hP
  | cons op rest ih =>
    show rbWitness s0 x (rbRun rest (rbStep rb op))
    refine ih (rbStep rb op) (rbStep_witness hP (hops op (by simp))) ?_
    intro o ho
    rw [rbStep_windowDuration, rbStep_windowCount]
    exact hops o (by simp [ho])

theorem rbContains_true_of_witness {s0 : Int} {x : String} {tq : Int}
    {rb : RotatingBloomFilter} (hP : rbWitness s0 x rb)
    (htq : tq ≤ s0 + rb.windowDuration * rb.windowCount) :
    (rbContains tq x rb).1 = true := by
  have hP2 : rbWitness s0 x (rotateIfNeeded tq rb) :=
    rotateIfNeeded_witness hP htq
  obtain ⟨w, hmem, _, hwc⟩ := hP2
  show (rotateIfNeeded tq rb).windows.any (fun w => bloomContains w.2 x) = true
  exact List.any_eq_true.mpr ⟨w, hmem, hwc⟩

end Rfmpd

namespace Rfmpd

theorem rotateIfNeeded_RBWF {now : Int} {rb : RotatingBloomFilter}
    (h : RBWF rb) : RBWF (rotateIfNeeded now rb) := by
  rcases hlast : rb.windows.getLast? with _ | w
  · rw [rotateIfNeeded_eq_of_none hlast]
    exact h
  · by_cases hc : rb.windowDuration * rb.windowCount < now - w.1
    · rw [rotateIfNeeded_eq_of_stale hlast hc]
      obtain ⟨h1, h2, h3⟩ := h
      refine ⟨h1, h2, ?_⟩
      intro w2 hw2
      rcases List.mem_cons.mp hw2 with heq | hin
      · subst heq
        exact ⟨rfl, rfl, by simp [emptyBloom]⟩
      · exact h3 w2 ((List.dropLast_sublist rb.windows).subset hin)
    · rw [rotateIfNeeded_eq_of_fresh hlast hc]
      exact h

theorem rbRun_windowDuration (ops : List RBOp) (rb : RotatingBloomFilter) :
    (rbRun ops rb).windowDuration = rb.windowDuration := by
  induction ops generalizing rb with
  | nil => rfl
  | cons op rest ih =>
    show (rbRun rest (rbStep rb op)).windowDuration = rb.windowDuration
    rw [ih, rbStep_windowDuration]

theorem rbRun_windowCount (ops : List RBOp) (rb : RotatingBloomFilter) :
    (rbRun ops rb).windowCount = rb.windowCount := by
  induction ops generalizing rb with
  | nil => rfl
  | cons op rest ih =>
    show (rbRun rest (rbStep rb op)).windowCount = rb.windowCount
    rw [ih, rbStep_windowCount]

/-! ### Claim theorems for the rotating Bloom filter -/

/-- C5 counterexample.  With `window_duration = 10`, `window_count = 3`, a
filter created at t=0 and `add("x")` at t=9, a query at t=33 already
returns `false` although only 24 s — less than `window_count ×
window_duration = 30` s — have passed since the add: expiry is keyed to
the *window start* (t=0), not to the add time, so `contains` can become
false sooner than the claim allows. -/
theorem rotating_bloom_expires_before_bound :
    (rbContains 31 "x" (rbAdd 9 "x" (rbInit 0 10 3 256 3))).1 = true ∧
    (rbContains 33 "x" ((rbContains 32 "x" ((rbContains 31 "x"
        (rbAdd 9 "x" (rbInit 0 10 3 256 3))).2)).2)).1 = false ∧
    (33 : Int) ≤ 9 + 10 * 3 :=
  ⟨by decide, by decide, by decide⟩

/-- C5 (amended).  For every item `x` added at time `t0`, `contains x`
stays true at least until wall-clock exceeds `s0 + window_count ×
window_duration`, where `s0 ≤ t0` is the start stamp of the current
window at the time of the add; only after that bound may it become
false.  (The claim's bound `t0 + window_count × window_duration` does not
hold, as the counterexample shows.) -/
theorem rotating_bloom_expiry_lower_bound
    (rb : RotatingBloomFilter) (x : String) (t0 s0 : Int) (f0 : BloomFilter)
    (ws0 : List (Int × BloomFilter)) (ops : List RBOp) (tq : Int)
    (hwf : RBWF rb)
    (hwin : (rotateIfNeeded t0 rb).windows = (s0, f0) :: ws0)
    (hops : ∀ op ∈ ops, op.time ≤ s0 + rb.windowDuration * rb.windowCount)
    (htq : tq ≤ s0 + rb.windowDuration * rb.windowCount) :
    (rbContains tq x (rbRun ops (rbAdd t0 x rb))).1 = true := by
  have hwf2 : RBWF (rotateIfNeeded t0 rb) := rotateIfNeeded_RBWF hwf
  have hf0 := hwf2.2.2 (s0, f0) (by rw [hwin]; exact List.mem_cons_self _ _)
  have hcontains : bloomContains (bloomAdd f0 x) x = true := by
    refine bloomContains_bloomAdd_self f0 x ?_ ?_ ?_
    · rw [hf0.1]; exact hwf2.1
    · rw [hf0.1]; exact hwf2.2.1
    · rw [hf0.2.2, hf0.1]
  have hP : rbWitness s0 x (rbAdd t0 x rb) := by
    rw [rbAdd_eq_of_cons hwin]
    exact ⟨(s0, bloomAdd f0 x), List.mem_cons_self _ _, rfl, hcontains⟩
  have hP2 : rbWitness s0 x (rbRun ops (rbAdd t0 x rb)) := by
    refine rbRun_witness ops (rbAdd t0 x rb) hP ?_
    intro op ho
    rw [rbAdd_windowDuration, rbAdd_windowCount]
    exact hops op ho
  refine rbContains_true_of_witness hP2 ?_
  rw [rbRun_windowDuration, rbRun_windowCount,
    rbAdd_windowDuration, rbAdd_windowCount]
  exact htq

theorem rotating_bloom_expiry_lower_bound_witness :
    (rbContains 30 "x" (rbRun [RBOp.query 25 "x"]
        (rbAdd 9 "x" (rbInit 0 10 3 256 3)))).1 = true :=
  rotating_bloom_expiry_lower_bound (rbInit 0 10 3 256 3) "x" 9 0
    (emptyBloom 256 3) [(-10, emptyBloom 256 3), (-20, emptyBloom 256 3)]
    [RBOp.query 25 "x"] 30
    (by unfold RBWF; exact ⟨by decide, by decide, by decide⟩)
    (by decide) (by decide) (by decide)

end Rfmpd

namespace Rfmpd

/-! ### Lemmas about the rate limiter: association list, filters, sums -/

theorem lookup_alistUpdate_self (id : String) (v : RequestRecord) :
    ∀ l : List (String × RequestRecord), (l.lookup id).isSome →
      (alistUpdate id v l).lookup id = some v := by
  intro l
  induction l with
  | nil => intro h; simp [List.lookup] at h
  | cons kw rest ih =>
    obtain ⟨k, w⟩ := kw
    intro h
    by_cases hk : k = id
    · subst hk
      simp [alistUpdate, List.lookup]
    · have hbeq : (id == k) = false := by
        simp only [beq_eq_false_iff_ne]
        exact fun he => hk he.symm
      rw [alistUpdate, if_neg hk]
      rw [List.lookup, hbeq] at h ⊢
      exact ih h

theorem lookup_alistUpdate_ne (id id2 : String) (v : RequestRecord)
    (hne : id2 ≠ id) :
    ∀ l : List (String × RequestRecord),
      (alistUpdate id v l).lookup id2 = l.lookup id2 := by
  intro l
  induction l with
  | nil => rfl
  | cons kw rest ih =>
    obtain ⟨k, w⟩ := kw
    by_cases hk : k = id
    · subst hk
      have hbeq : (id2 == k) = false := by
        simp only [beq_eq_false_iff_ne]
        exact hne
      rw [alistUpdate, if_pos rfl]
      rw [List.lookup, List.lookup, hbeq]
    · rw [alistUpdate, if_neg hk]
      rw [List.lookup, List.lookup]
      cases hbeq : (id2 == k) with
      | true => rfl
      | false => exact ih

theorem filter_window_filter {A : List Int} {tp t : Int} (h : tp ≤ t) :
    (A.filter (fun s => tp - 60 < s)).filter (fun s => t - 60 < s)
      = A.filter (fun s => t - 60 < s) := by
  rw [List.filter_filter]
  apply List.filter_congr
  intro a _
  by_cases hc : t - 60 < a
  · have hc2 : tp - 60 < a := by omega
    simp [hc, hc2]
  · simp [hc]

theorem length_filter_le_of_imp {p q : Int → Bool} (l : List Int)
    (h : ∀ a ∈ l, p a = true → q a = true) :
    (l.filter p).length ≤ (l.filter q).length := by
  induction l with
  | nil => simp
  | cons a rest ih =>
    have ih2 := ih (fun b hb => h b (by simp [hb]))
    by_cases hp : p a = true
    · rw [List.filter_cons, if_pos hp, List.filter_cons,
        if_pos (h a (by simp) hp)]
      simpa using ih2
    · rw [List.filter_cons, if_neg hp, List.filter_cons]
      by_cases hq : q a = true
      · rw [if_pos hq]
        simp only [List.length_cons]
        omega
      · rw [if_neg hq]
        exact ih2

/-- From the per-admission bound (no admission sees `max` or more prior
admissions inside its own trailing minute) the trailing-window bound
follows: no 60-second window contains more than `max` admissions. -/
theorem window_of_decomp (max : Nat) :
    ∀ A : List Int,
      (∀ pre s post, A = pre ++ s :: post →
        (pre.filter (fun u => s - 60 < u)).length < max) →
      ∀ t : Int,
        ((A.filter (fun s => t - 60 < s ∧ s ≤ t)).length ≤ max) := by
  intro A
  induction A using List.reverseRecOn with
  | nil => intro _ t; simp
  | append_singleton B b ih =>
    intro hP t
    have hPB : ∀ pre s post, B = pre ++ s :: post →
        (pre.filter (fun u => s - 60 < u)).length < max := by
      intro pre s post hdec
      exact hP pre s (post ++ [b]) (by rw [hdec]; simp)
    rw [List.filter_append]
    by_cases hb : t - 60 < b ∧ b ≤ t
    · have hsingle : [b].filter (fun s => decide (t - 60 < s ∧ s ≤ t)) = [b] := by
        simp [hb]
      rw [hsingle, List.length_append]
      have hmono : (B.filter (fun s => decide (t - 60 < s ∧ s ≤ t))).length
          ≤ (B.filter (fun u => b - 60 < u)).length := by
        refine length_filter_le_of_imp B ?_
        intro a _ ha
        have ha2 : t - 60 < a ∧ a ≤ t := of_decide_eq_true ha
        have : b - 60 < a := by omega
        simpa using this
      have hPb := hP B b [] rfl
      simp only [List.length_singleton]
      omega
    · have hsingle : [b].filter (fun s => decide (t - 60 < s ∧ s ≤ t)) = [] := by
        simp [hb]
      rw [hsingle, List.append_nil]
      exact ih hPB t

theorem backoffTerm_zero (cfg : RateLimitConfig)
    (h1 : cfg.initialBackoff ≤ cfg.maxBackoff) :
    backoffTerm cfg 0 = cfg.initialBackoff := by
  unfold backoffTerm
  rw [pow_zero, mul_one]
  exact min_eq_right h1

theorem backoffTerm_step (cfg : RateLimitConfig) (k : Nat)
    (h0 : 0 ≤ cfg.initialBackoff) (h1 : cfg.initialBackoff ≤ cfg.maxBackoff) :
    min cfg.maxBackoff (backoffTerm cfg k * 2) = backoffTerm cfg (k + 1) := by
  unfold backoffTerm
  have hp : (0:Int) ≤ cfg.initialBackoff * 2 ^ k :=
    mul_nonneg h0 (by positivity)
  have hM : (0:Int) ≤ cfg.maxBackoff := le_trans h0 h1
  have hs : cfg.initialBackoff * 2 ^ (k + 1)
      = cfg.initialBackoff * 2 ^ k * 2 := by ring
  rw [hs]
  omega

theorem backoffSum_zero (cfg : RateLimitConfig) : backoffSum cfg 0 = 0 :=
  Finset.sum_range_zero _

theorem backoffSum_succ (cfg : RateLimitConfig) (n : Nat) :
    backoffSum cfg (n + 1) = backoffSum cfg n + backoffTerm cfg n :=
  Finset.sum_range_succ _ _

theorem admittedTimes_append_one (adm : List (Int × String)) (t : Int)
    (id : String) :
    admittedTimes (adm ++ [(t, id)]) = admittedTimes adm ++ [t] := by
  simp [admittedTimes]

theorem admittedFor_append_self (adm : List (Int × String)) (t : Int)
    (id : String) :
    admittedFor id (adm ++ [(t, id)]) = admittedFor id adm ++ [t] := by
  simp [admittedFor]

theorem admittedFor_append_ne (adm : List (Int × String)) (t : Int)
    (id id2 : String) (h : id2 ≠ id) :
    admittedFor id2 (adm ++ [(t, id)]) = admittedFor id2 adm := by
  simp [admittedFor, List.filter_append, h, Ne.symm h]

end Rfmpd

namespace Rfmpd

/-! ### Step-unfolding lemmas for the rate limiter -/

theorem canSendReq_denied_global {now : Int} {id : String} {rl : RateLimiter}
    (hg : ¬ (rl.requestHistory.filter (fun ts => now - 60 < ts)).length
        < rl.config.maxReqPerMin) :
    canSendReq now id rl = (false,
      { rl with
        requestHistory := rl.requestHistory.filter
          (fun ts => now - 60 < ts) }) := by
  unfold canSendReq checkGlobalLimit
  simp [hg]

theorem canSendReq_admitted {now : Int} {id : String} {rl : RateLimiter}
    (hg : (rl.requestHistory.filter (fun ts => now - 60 < ts)).length
        < rl.config.maxReqPerMin)
    (hm : checkMessageLimit now id
      { rl with
        requestHistory := rl.requestHistory.filter
          (fun ts => now - 60 < ts) } = true) :
    canSendReq now id rl = (true,
      { rl with
        requestHistory := rl.requestHistory.filter
          (fun ts => now - 60 < ts) }) := by
  unfold canSendReq checkGlobalLimit
  simp [hg, hm]

theorem canSendReq_denied_message {now : Int} {id : String} {rl : RateLimiter}
    (hg : (rl.requestHistory.filter (fun ts => now - 60 < ts)).length
        < rl.config.maxReqPerMin)
    (hm : ¬ checkMessageLimit now id
      { rl with
        requestHistory := rl.requestHistory.filter
          (fun ts => now - 60 < ts) } = true) :
    canSendReq now id rl = (false,
      { rl with
        requestHistory := rl.requestHistory.filter
          (fun ts => now - 60 < ts) }) := by
  unfold canSendReq checkGlobalLimit
  simp [hg, hm]

theorem rlAttempt_of_canSend_true {now : Int} {id : String}
    {rl rl2 : RateLimiter} (h : canSendReq now id rl = (true, rl2)) :
    rlAttempt now id rl = (true, recordReq now id rl2) := by
  unfold rlAttempt
  rw [h]

theorem rlAttempt_of_canSend_false {now : Int} {id : String}
    {rl rl2 : RateLimiter} (h : canSendReq now id rl = (false, rl2)) :
    rlAttempt now id rl = (false, rl2) := by
  unfold rlAttempt
  rw [h]

theorem rlRun_cons_admitted {t : Int} {id : String} {rl rl2 : RateLimiter}
    {rest : List (Int × String)} (h : rlAttempt t id rl = (true, rl2)) :
    rlRun ((t, id) :: rest) rl =
      ((t, id) :: (rlRun rest rl2).1, (rlRun rest rl2).2) := by
  rw [rlRun, h]

theorem rlRun_cons_denied {t : Int} {id : String} {rl rl2 : RateLimiter}
    {rest : List (Int × String)} (h : rlAttempt t id rl = (false, rl2)) :
    rlRun ((t, id) :: rest) rl = rlRun rest rl2 := by
  rw [rlRun, h]

theorem recordReq_config (now : Int) (id : String) (rl : RateLimiter) :
    (recordReq now id rl).config = rl.config := by
  unfold recordReq
  rcases h : rl.messageRequests.lookup id with _ | rec0 <;> simp [h]

theorem recordReq_hist (now : Int) (id : String) (rl : RateLimiter) :
    (recordReq now id rl).requestHistory = rl.requestHistory ++ [now] := by
  unfold recordReq
  rcases h : rl.messageRequests.lookup id with _ | rec0 <;> simp [h]

theorem lookup_cons_self {v : RequestRecord} {id : String}
    (l : List (String × RequestRecord)) :
    (((id, v)) :: l).lookup id = some v := by
  simp [List.lookup]

theorem lookup_cons_ne {v : RequestRecord} {id id2 : String}
    (l : List (String × RequestRecord)) (h : id2 ≠ id) :
    (((id, v)) :: l).lookup id2 = l.lookup id2 := by
  have hbeq : (id2 == id) = false := by
    simp only [beq_eq_false_iff_ne]
    exact h
  simp [List.lookup, hbeq]

theorem getD_concat_length (l : List Int) (a : Int) :
    (l ++ [a]).getD l.length 0 = a := by
  induction l with
  | nil => rfl
  | cons x xs ih =>
    simp only [List.cons_append, List.length_cons, List.getD_cons_succ]
    exact ih

theorem getD_append_left {l : List Int} (l2 : List Int) {n : Nat}
    (h : n < l.length) : (l ++ l2).getD n 0 = l.getD n 0 := by
  induction l generalizing n with
  | nil => exact absurd h (by simp)
  | cons x xs ih =>
    cases n with
    | zero => rfl
    | succ m =>
      simp only [List.cons_append, List.getD_cons_succ]
      exact ih (by simpa using h)

theorem getD_of_getLast_cons :
    ∀ (us : List Int) (u0 x : Int), (u0 :: us).getLast? = some x →
      (u0 :: us).getD us.length 0 = x := by
  intro us
  induction us with
  | nil =>
    intro u0 x h
    simp at h
    simp [h]
  | cons v us2 ih =>
    intro u0 x h
    rw [List.getLast?_cons_cons] at h
    simpa using ih v x h

end Rfmpd

namespace Rfmpd

/-- An admitted REQ for `id` at time `t` updates the per-message records
exactly as the invariant `RLRecordsOK` describes. -/
theorem recordReq_RLRecordsOK {cfg : RateLimitConfig}
    {adm0 : List (Int × String)} {t : Int} {id : String} {rl : RateLimiter}
    (hcfg0 : 0 ≤ cfg.initialBackoff)
    (hcfg1 : cfg.initialBackoff ≤ cfg.maxBackoff)
    (hc : rl.config = cfg)
    (hr : RLRecordsOK cfg adm0 rl.messageRequests)
    (hm : checkMessageLimit t id rl = true) :
    RLRecordsOK cfg (adm0 ++ [(t, id)]) (recordReq t id rl).messageRequests := by
  intro id2
  rcases h0 : rl.messageRequests.lookup id with _ | rec0
  · have hrecEq : (recordReq t id rl).messageRequests
        = (id, ⟨id, t, t, 1, rl.config.initialBackoff⟩)
          :: rl.messageRequests := by
      unfold recordReq
      rw [h0]
    have hAempty : admittedFor id adm0 = [] := by
      rcases hA : admittedFor id adm0 with _ | ⟨u0, us⟩
      · rfl
      · obtain ⟨rec2, hrec2, _⟩ := (hr id).2 u0 us hA
        rw [h0] at hrec2
        exact absurd hrec2 (by simp)
    by_cases hid : id2 = id
    · subst hid
      constructor
      · intro habs
        rw [admittedFor_append_self, hAempty] at habs
        simp at habs
      · intro u0 us hA2
        rw [admittedFor_append_self, hAempty, List.nil_append] at hA2
        cases hA2
        refine ⟨⟨id2, t, t, 1, rl.config.initialBackoff⟩, ?_, rfl, ?_, ?_, ?_, ?_⟩
        · rw [hrecEq]
          exact lookup_cons_self _
        · show rl.config.initialBackoff = backoffTerm cfg ([] : List Int).length
          rw [hc, List.length_nil, backoffTerm_zero cfg hcfg1]
        · rfl
        · intro n hn
          have hn0 : n = 0 := by
            simpa using hn
          subst hn0
          rw [backoffSum_zero]
          simp
        · intro h1
          simpa using h1
    · rw [admittedFor_append_ne _ _ _ _ hid]
      refine ⟨?_, ?_⟩
      · intro hAe
        rw [hrecEq, lookup_cons_ne _ hid]
        exact (hr id2).1 hAe
      · intro u0 us hA2
        obtain ⟨rec2, hlk, hrest⟩ := (hr id2).2 u0 us hA2
        exact ⟨rec2, by rw [hrecEq, lookup_cons_ne _ hid]; exact hlk, hrest⟩
  · have hmm : rec0.attemptCount < cfg.maxRetries ∧
        rec0.lastAttempt + rec0.backoffSeconds ≤ t := by
      unfold checkMessageLimit at hm
      simp only [h0] at hm
      by_cases hcnt : rl.config.maxRetries ≤ rec0.attemptCount
      · rw [if_pos hcnt] at hm
        exact absurd hm (by simp)
      · rw [if_neg hcnt] at hm
        rw [hc] at hcnt
        exact ⟨Nat.lt_of_not_le hcnt, of_decide_eq_true hm⟩
    obtain ⟨u0, us, hA⟩ : ∃ u0 us, admittedFor id adm0 = u0 :: us := by
      rcases hA : admittedFor id adm0 with _ | ⟨u0, us⟩
      · have h1 := (hr id).1 hA
        rw [h0] at h1
        exact absurd h1 (by simp)
      · exact ⟨u0, us, rfl⟩
    obtain ⟨rec2, hlk, hcnt, hbk, hlast, hchain, _hmr⟩ := (hr id).2 u0 us hA
    have hrec2 : rec2 = rec0 := by
      rw [h0] at hlk
      exact (Option.some_inj.mp hlk).symm
    subst hrec2
    have hrecEq : (recordReq t id rl).messageRequests
        = alistUpdate id
            { rec2 with
              lastAttempt := t,
              attemptCount := rec2.attemptCount + 1,
              backoffSeconds := min rl.config.maxBackoff
                (rec2.backoffSeconds * 2) }
            rl.messageRequests := by
      unfold recordReq
      rw [h0]
    by_cases hid : id2 = id
    · subst hid
      constructor
      · intro habs
        rw [admittedFor_append_self, hA] at habs
        simp at habs
      · intro v0 vs hA2
        rw [admittedFor_append_self, hA, List.cons_append] at hA2
        cases hA2
        refine ⟨{ rec2 with
            lastAttempt := t,
            attemptCount := rec2.attemptCount + 1,
            backoffSeconds := min rl.config.maxBackoff
              (rec2.backoffSeconds * 2) }, ?_, ?_, ?_, ?_, ?_, ?_⟩
        · rw [hrecEq]
          exact lookup_alistUpdate_self id2 _ _ (by rw [h0]; rfl)
        · show rec2.attemptCount + 1 = (u0 :: (us ++ [t])).length
          rw [hcnt]
          simp
        · show min rl.config.maxBackoff (rec2.backoffSeconds * 2)
            = backoffTerm cfg (us ++ [t]).length
          rw [hc, hbk, backoffTerm_step cfg us.length hcfg0 hcfg1]
          simp
        · show (u0 :: (us ++ [t])).getLast? = some t
          rw [← List.cons_append, List.getLast?_concat]
        · intro n hn
          by_cases hlt : n < us.length + 1
          · have hgd : (u0 :: (us ++ [t])).getD n 0 = (u0 :: us).getD n 0 := by
              rw [← List.cons_append]
              exact getD_append_left [t] (by simpa using hlt)
            rw [hgd]
            exact hchain n (by simpa using hlt)
          · have hn2 : n = us.length + 1 := by
              simp only [List.length_cons, List.length_append,
                List.length_singleton, List.length_nil] at hn
              omega
            subst hn2
            have hgd : (u0 :: (us ++ [t])).getD (us.length + 1) 0 = t := by
              rw [← List.cons_append]
              exact getD_concat_length (u0 :: us) t
            rw [hgd]
            have hlastD : (u0 :: us).getD us.length 0 = rec2.lastAttempt :=
              getD_of_getLast_cons us u0 _ hlast
            have hch := hchain us.length (by simp)
            rw [hlastD] at hch
            have hbsum := backoffSum_succ cfg us.length
            have hb2 := hmm.2
            rw [hbk] at hb2
            omega
        · intro _
          have h1 := hmm.1
          rw [hcnt] at h1
          simp only [List.length_cons, List.length_append,
            List.length_singleton, List.length_nil] at h1 ⊢
          omega
    · rw [admittedFor_append_ne _ _ _ _ hid]
      refine ⟨?_, ?_⟩
      · intro hAe
        rw [hrecEq, lookup_alistUpdate_ne id id2 _ hid]
        exact (hr id2).1 hAe
      · intro v0 vs hA2
        obtain ⟨rec3, hlk3, hrest⟩ := (hr id2).2 v0 vs hA2
        exact ⟨rec3, by rw [hrecEq, lookup_alistUpdate_ne id id2 _ hid]; exact hlk3,
          hrest⟩

end Rfmpd

namespace Rfmpd

/-- Main rate-limiter trace invariant: starting from a state whose history
and records reflect the admissions `adm0` (all at times `≤ tp`), running
further attempts at nondecreasing times `≥ tp` (1) admits a request only
when fewer than `max_req_per_min` admissions lie in its trailing minute,
and (2) keeps the records in sync with the full admission list. -/
theorem rlRun_inv (cfg : RateLimitConfig)
    (hcfg0 : 0 ≤ cfg.initialBackoff)
    (hcfg1 : cfg.initialBackoff ≤ cfg.maxBackoff) :
    ∀ (attempts : List (Int × String)) (rl : RateLimiter)
      (adm0 : List (Int × String)) (tp : Int),
      rl.config = cfg →
      rl.requestHistory
        = (admittedTimes adm0).filter (fun s => tp - 60 < s) →
      RLRecordsOK cfg adm0 rl.messageRequests →
      List.Pairwise (fun a b => a.1 ≤ b.1) attempts →
      (∀ e ∈ attempts, tp ≤ e.1) →
      (∀ pre s post,
        admittedTimes (rlRun attempts rl).1 = pre ++ s :: post →
        ((admittedTimes adm0 ++ pre).filter
          (fun u => s - 60 < u)).length < cfg.maxReqPerMin) ∧
      RLRecordsOK cfg (adm0 ++ (rlRun attempts rl).1)
        (rlRun attempts rl).2.messageRequests := by
  intro attempts
  induction attempts with
  | nil =>
    intro rl adm0 tp hc hh hr hpw hge
    refine ⟨?_, ?_⟩
    · intro pre s post hdec
      rw [show rlRun [] rl = (([] : List (Int × String)), rl) from rfl] at hdec
      simp [admittedTimes] at hdec
    · rw [show rlRun [] rl = (([] : List (Int × String)), rl) from rfl]
      simpa using hr
  | cons e rest ih =>
    obtain ⟨t, id⟩ := e
    intro rl adm0 tp hc hh hr hpw hge
    have htp : tp ≤ t := hge (t, id) (List.mem_cons_self _ _)
    have hpw2 : List.Pairwise (fun a b => a.1 ≤ b.1) rest :=
      (List.pairwise_cons.mp hpw).2
    have hge2 : ∀ e2 ∈ rest, t ≤ e2.1 := (List.pairwise_cons.mp hpw).1
    have hphist : rl.requestHistory.filter (fun ts => t - 60 < ts)
        = (admittedTimes adm0).filter (fun s => t - 60 < s) := by
      rw [hh]
      exact filter_window_filter htp
    by_cases hg : (rl.requestHistory.filter (fun ts => t - 60 < ts)).length
        < rl.config.maxReqPerMin
    · by_cases hm : checkMessageLimit t id
          { rl with
            requestHistory :=
              rl.requestHistory.filter fun ts => t - 60 < ts } = true
      · have hat := rlAttempt_of_canSend_true (canSendReq_admitted hg hm)
        rw [rlRun_cons_admitted hat]
        have hsing : ([t].filter (fun s => t - 60 < s)) = [t] := by
          have h60 : t - 60 < t := by omega
          simp [h60]
        have hh2 : (recordReq t id
            { rl with
              requestHistory :=
                rl.requestHistory.filter fun ts => t - 60 < ts }).requestHistory
            = (admittedTimes (adm0 ++ [(t, id)])).filter
              (fun s => t - 60 < s) := by
          rw [recordReq_hist, hphist, admittedTimes_append_one,
            List.filter_append, hsing]
        have hc2 : (recordReq t id
            { rl with
              requestHistory :=
                rl.requestHistory.filter fun ts => t - 60 < ts }).config
            = cfg := by
          rw [recordReq_config]
          exact hc
        have hr2 : RLRecordsOK cfg (adm0 ++ [(t, id)])
            (recordReq t id
              { rl with
                requestHistory :=
                  rl.requestHistory.filter
                    fun ts => t - 60 < ts }).messageRequests :=
          recordReq_RLRecordsOK hcfg0 hcfg1 hc hr hm
        have IH := ih _ (adm0 ++ [(t, id)]) t hc2 hh2 hr2 hpw2 hge2
        refine ⟨?_, ?_⟩
        · intro pre s post hdec
          cases pre with
          | nil =>
            simp only [List.nil_append] at hdec
            rw [show admittedTimes ((t, id) :: (rlRun rest (recordReq t id
                { rl with
                  requestHistory :=
                    rl.requestHistory.filter fun ts => t - 60 < ts })).1)
                = t :: admittedTimes (rlRun rest (recordReq t id
                { rl with
                  requestHistory :=
                    rl.requestHistory.filter
                      fun ts => t - 60 < ts })).1 from rfl] at hdec
            cases hdec
            rw [List.append_nil, ← hphist, ← hc]
            exact hg
          | cons p pre2 =>
            rw [show admittedTimes ((t, id) :: (rlRun rest (recordReq t id
                { rl with
                  requestHistory :=
                    rl.requestHistory.filter fun ts => t - 60 < ts })).1)
                = t :: admittedTimes (rlRun rest (recordReq t id
                { rl with
                  requestHistory :=
                    rl.requestHistory.filter
                      fun ts => t - 60 < ts })).1 from rfl] at hdec
            simp only [List.cons_append] at hdec
            injection hdec with h1 h2
            subst h1
            have h3 := IH.1 pre2 s post h2
            rw [admittedTimes_append_one, List.append_assoc] at h3
            simpa using h3
        · have h3 := IH.2
          rw [List.append_assoc] at h3
          simpa using h3
      · have hat := rlAttempt_of_canSend_false (canSendReq_denied_message hg hm)
        rw [rlRun_cons_denied hat]
        exact ih _ adm0 t hc hphist hr hpw2 hge2
    · have hat := rlAttempt_of_canSend_false
        (@canSendReq_denied_global t id rl hg)
      rw [rlRun_cons_denied hat]
      exact ih _ adm0 t hc hphist hr hpw2 hge2

end Rfmpd

namespace Rfmpd

/-- C6.  Rate-limit bounds, for any nondecreasing trace of REQ attempts
starting from a fresh `RateLimiter` (with `initial_backoff` between 0 and
`max_backoff`, as in the defaults 30/600):
(a) every trailing 60-second window contains at most `max_req_per_min`
admissions; (b) the n-th admission for a given id (0-indexed from the
first) comes no sooner than `Σ_{i<n} min(max_backoff,
initial_backoff·2^i)` seconds after the first; (c) with `max_retries ≥ 1`,
no id is ever admitted more than `max_retries` times. -/
theorem rate_limit_bounds (cfg : RateLimitConfig)
    (attempts : List (Int × String))
    (hcfg0 : 0 ≤ cfg.initialBackoff)
    (hcfg1 : cfg.initialBackoff ≤ cfg.maxBackoff)
    (hsorted : List.Pairwise (fun a b => a.1 ≤ b.1) attempts) :
    (∀ t : Int,
      ((admittedTimes (rlRun attempts (rlInit cfg)).1).filter
        (fun s => t - 60 < s ∧ s ≤ t)).length ≤ cfg.maxReqPerMin) ∧
    (∀ id u0 n,
      (admittedFor id (rlRun attempts (rlInit cfg)).1).head? = some u0 →
      n < (admittedFor id (rlRun attempts (rlInit cfg)).1).length →
      u0 + backoffSum cfg n
        ≤ (admittedFor id (rlRun attempts (rlInit cfg)).1).getD n 0) ∧
    (1 ≤ cfg.maxRetries → ∀ id,
      (admittedFor id (rlRun attempts (rlInit cfg)).1).length
        ≤ cfg.maxRetries) := by
  have hrecs0 : RLRecordsOK cfg [] (rlInit cfg).messageRequests := by
    intro id
    refine ⟨fun _ => rfl, ?_⟩
    intro u0 us hA2
    exact absurd hA2 (by simp [admittedFor])
  have hmain : (∀ pre s post,
      admittedTimes (rlRun attempts (rlInit cfg)).1 = pre ++ s :: post →
      ((admittedTimes ([] : List (Int × String)) ++ pre).filter
        (fun u => s - 60 < u)).length < cfg.maxReqPerMin) ∧
      RLRecordsOK cfg ([] ++ (rlRun attempts (rlInit cfg)).1)
        (rlRun attempts (rlInit cfg)).2.messageRequests := by
    cases attempts with
    | nil =>
      refine ⟨?_, ?_⟩
      · intro pre s post hdec
        rw [show rlRun [] (rlInit cfg)
          = (([] : List (Int × String)), rlInit cfg) from rfl] at hdec
        simp [admittedTimes] at hdec
      · rw [show rlRun [] (rlInit cfg)
          = (([] : List (Int × String)), rlInit cfg) from rfl]
        simpa using hrecs0
    | cons e rest =>
      refine rlRun_inv cfg hcfg0 hcfg1 (e :: rest) (rlInit cfg) [] e.1
        rfl rfl hrecs0 hsorted ?_
      intro e2 he2
      rcases List.mem_cons.mp he2 with he2 | he2
      · rw [he2]
      · exact (List.pairwise_cons.mp hsorted).1 e2 he2
  refine ⟨?_, ?_, ?_⟩
  · intro t
    refine window_of_decomp cfg.maxReqPerMin _ ?_ t
    intro pre s post hdec
    have h1 := hmain.1 pre s post hdec
    simpa [admittedTimes] using h1
  · intro id u0 n hhead hn
    rcases hA : admittedFor id (rlRun attempts (rlInit cfg)).1
      with _ | ⟨v0, vs⟩
    · rw [hA] at hhead
      exact absurd hhead (by simp)
    · have hrec := (by simpa using hmain.2 : RLRecordsOK cfg
        (rlRun attempts (rlInit cfg)).1
        (rlRun attempts (rlInit cfg)).2.messageRequests)
      obtain ⟨rec0, _, _, _, _, hchain, _⟩ := (hrec id).2 v0 vs hA
      rw [hA] at hhead hn
      have hv0 : v0 = u0 := by
        simpa using hhead
      subst hv0
      exact hchain n hn
  · intro hmr id
    rcases hA : admittedFor id (rlRun attempts (rlInit cfg)).1
      with _ | ⟨v0, vs⟩
    · simp
    · have hrec := (by simpa using hmain.2 : RLRecordsOK cfg
        (rlRun attempts (rlInit cfg)).1
        (rlRun attempts (rlInit cfg)).2.messageRequests)
      obtain ⟨rec0, _, _, _, _, _, hbound⟩ := (hrec id).2 v0 vs hA
      exact hbound hmr

theorem rate_limit_bounds_witness :
    ((admittedTimes (rlRun [((0 : Int), "a"), ((10 : Int), "a")]
        (rlInit defaultRateLimitConfig)).1).filter
      (fun s => (0 : Int) - 60 < s ∧ s ≤ 0)).length
      ≤ defaultRateLimitConfig.maxReqPerMin :=
  (rate_limit_bounds defaultRateLimitConfig [((0 : Int), "a"), ((10 : Int), "a")]
    (by decide) (by decide) (by decide)).1 0

end Rfmpd

namespace Rfmpd

/-! ### Daemon dedup (claims about `handle_msg_frame` / `handle_frag_frame`) -/

theorem markSeen_any (now : Int) (id : List Char) (idx : Option Int)
    (reb : Bool) (s : List SeenRow) (idq : List Char) :
    (markSeen now id idx reb s).any (fun r => r.messageId = idq)
      = (s.any (fun r => r.messageId = idq) || decide (id = idq)) := by
  unfold markSeen
  by_cases h : s.any (fun r => r.messageId = id)
  · rw [if_pos h, List.any_map]
    have hcomp :
        ((fun r : SeenRow => decide (r.messageId = idq)) ∘
          (fun r : SeenRow =>
            if r.messageId = id then (⟨id, idx, now, reb⟩ : SeenRow) else r))
          = fun r : SeenRow => decide (r.messageId = idq) := by
      funext r
      by_cases hr : r.messageId = id
      · simp [Function.comp, hr]
      · simp [Function.comp, hr]
    rw [hcomp]
    rcases hid : decide (id = idq) with _ | _
    · simp
    · have hq : id = idq := of_decide_eq_true hid
      subst hq
      simp [h]
  · rw [if_neg h, List.any_append]
    simp

theorem handleMsgFrame_of_seen (now : Int) (m : MSG) (st : DaemonState)
    (h : st.seenCache.any (fun r => r.messageId = m.id) = true) :
    handleMsgFrame now m st = st := by
  unfold handleMsgFrame markSeenIfNew
  rw [if_pos h]

theorem handleMsgFrame_of_new (now : Int) (m : MSG) (st : DaemonState)
    (hseen : st.seenCache.any (fun r => r.messageId = m.id) = false)
    (hmsg : st.messages.any (fun r => r.id = m.id) = false) :
    handleMsgFrame now m st =
      { st with
        seenCache := markSeen now m.id none true
          (st.seenCache ++ [⟨m.id, none, now, false⟩]),
        messages := st.messages ++ [⟨m.id, m.fromNode, m.timestamp,
          m.channel, m.priority, m.replyTo, m.body, now⟩],
        bloom := rbAdd now ⟨m.id⟩ st.bloom,
        notifications := st.notifications + 1,
        txQueue := st.txQueue + 1 } := by
  have hreb : isSeenReb m.id (st.seenCache ++ [⟨m.id, none, now, false⟩])
      = false := by
    unfold isSeenReb
    rw [List.any_append]
    have h1 : st.seenCache.any
        (fun r => decide (r.messageId = m.id ∧ r.fragmentIdx = none ∧
          r.rebroadcast = true)) = false := by
      rw [List.any_eq_false]
      intro r hr
      simp only [decide_eq_true_eq]
      rintro ⟨h1, -, -⟩
      have := List.any_eq_false.mp hseen r hr
      simp [h1] at this
    rw [h1, Bool.false_or]
    simp
  unfold handleMsgFrame markSeenIfNew saveMessage
  rw [if_neg (by simp [hseen]), if_neg (by simp [hmsg])]
  simp [hreb]

theorem runMsgFrames_inv (trace : List (Int × MSG)) :
    ∀ st : DaemonState, dedupInvariant st →
      dedupInvariant (runMsgFrames trace st) ∧
      ∀ id : List Char,
        (runMsgFrames trace st).messages.any (fun r => r.id = id)
          = (st.messages.any (fun r => r.id = id)
             || trace.any (fun e => e.2.id = id)) := by
  induction trace with
  | nil =>
    intro st hst
    refine ⟨hst, fun id => ?_⟩
    simp [runMsgFrames]
  | cons e rest ih =>
    intro st hst
    obtain ⟨hnd, hsm, hnotif, htx⟩ := hst
    have hstep : runMsgFrames (e :: rest) st
        = runMsgFrames rest (handleMsgFrame e.1 e.2 st) := by
      rw [runMsgFrames, List.foldl_cons]
      rfl
    by_cases hs : st.seenCache.any (fun r => r.messageId = e.2.id) = true
    · -- duplicate id: the frame is dropped and the state is unchanged
      have heq : handleMsgFrame e.1 e.2 st = st :=
        handleMsgFrame_of_seen e.1 e.2 st hs
      rw [hstep, heq]
      obtain ⟨hinv, hany⟩ := ih st ⟨hnd, hsm, hnotif, htx⟩
      refine ⟨hinv, fun id => ?_⟩
      rw [hany id, List.any_cons]
      have hmsgs : st.messages.any (fun r => r.id = e.2.id) = true := by
        rw [← hsm]; exact hs
      rcases hid : decide (e.2.id = id) with _ | _
      · simp
      · have : e.2.id = id := of_decide_eq_true hid
        subst this
        simp [hmsgs]
    · -- new id: the message is saved, notified and queued
      have hseen : st.seenCache.any (fun r => r.messageId = e.2.id) = false :=
        eq_false_of_ne_true hs
      have hmsg : st.messages.any (fun r => r.id = e.2.id) = false := by
        rw [← hsm]; exact hseen
      have heq := handleMsgFrame_of_new e.1 e.2 st hseen hmsg
      have hinv' : dedupInvariant (handleMsgFrame e.1 e.2 st) := by
        rw [heq]
        refine ⟨?_, ?_, ?_, ?_⟩
        · simp only [List.map_append, List.map_cons, List.map_nil]
          rw [List.nodup_append]
          refine ⟨hnd, List.nodup_singleton _, ?_⟩
          intro a ha hb
          simp only [List.mem_singleton] at hb
          subst hb
          obtain ⟨r, hr, hrid⟩ := List.mem_map.mp ha
          have := List.any_eq_false.mp hmsg r hr
          simp [hrid] at this
        · intro idq
          rw [markSeen_any, List.any_append, List.any_append]
          rw [hsm idq]
          simp [Bool.or_assoc]
        · simp [hnotif]
        · simp [htx]
      obtain ⟨hinv'', hany⟩ := ih (handleMsgFrame e.1 e.2 st) hinv'
      rw [hstep]
      refine ⟨hinv'', fun id => ?_⟩
      rw [hany id, heq]
      simp only [List.any_append, List.any_cons, List.any_nil]
      simp [Bool.or_assoc]

end Rfmpd

namespace Rfmpd

/-- C1: for any sequence of ingested MSG frames in which `k` distinct
message ids appear, exactly `k` subscriber notifications are emitted,
exactly `k` message rows are persisted (no two rows share an id) and
exactly `k` rebroadcasts are queued, regardless of the order or
repetition of the frames; `handle_msg_frame` drops every frame whose id
was already recorded by `mark_seen_if_new` and processes every other
frame end-to-end exactly once. -/
theorem msg_dedup_exactness (t0 : Int) (trace : List (Int × MSG)) :
    (runMsgFrames trace (initDaemonState t0)).notifications
        = (trace.map (fun e => e.2.id)).toFinset.card ∧
    (runMsgFrames trace (initDaemonState t0)).messages.length
        = (trace.map (fun e => e.2.id)).toFinset.card ∧
    (runMsgFrames trace (initDaemonState t0)).txQueue
        = (trace.map (fun e => e.2.id)).toFinset.card ∧
    ((runMsgFrames trace (initDaemonState t0)).messages.map
        MsgRow.id).Nodup := by
  have hinit : dedupInvariant (initDaemonState t0) := by
    refine ⟨?_, ?_, rfl, rfl⟩
    · simp [initDaemonState]
    · intro id
      rfl
  obtain ⟨⟨hnd, hsm, hnotif, htx⟩, hany⟩ :=
    runMsgFrames_inv trace (initDaemonState t0) hinit
  have hset :
      ((runMsgFrames trace (initDaemonState t0)).messages.map
        MsgRow.id).toFinset
        = (trace.map (fun e => e.2.id)).toFinset := by
    ext a
    simp only [List.mem_toFinset, List.mem_map]
    constructor
    · rintro ⟨r, hr, rfl⟩
      have hmem : (runMsgFrames trace (initDaemonState t0)).messages.any
          (fun x => x.id = r.id) = true :=
        List.any_eq_true.mpr ⟨r, hr, by simp⟩
      rw [hany r.id] at hmem
      simp only [initDaemonState, List.any_nil, Bool.false_or] at hmem
      obtain ⟨e, he, hid⟩ := List.any_eq_true.mp hmem
      exact ⟨e, he, of_decide_eq_true hid⟩
    · rintro ⟨e, he, rfl⟩
      have hmem : (runMsgFrames trace (initDaemonState t0)).messages.any
          (fun x => x.id = e.2.id) = true := by
        rw [hany e.2.id]
        have h2 : trace.any (fun x => x.2.id = e.2.id) = true :=
          List.any_eq_true.mpr ⟨e, he, by simp⟩
        simp [h2]
      obtain ⟨r, hr, hid⟩ := List.any_eq_true.mp hmem
      exact ⟨r, hr, of_decide_eq_true hid⟩
  have hcard : (runMsgFrames trace (initDaemonState t0)).messages.length
      = (trace.map (fun e => e.2.id)).toFinset.card := by
    rw [← hset, List.toFinset_card_of_nodup hnd, List.length_map]
  exact ⟨hnotif.trans hcard, hcard, htx.trans hcard, hnd⟩

set_option maxRecDepth 100000 in
/-- C2: fragmented-message delivery fails end to end.  `msgC2` encodes
to 127 bytes and splits into 3 fragments at the 100-byte threshold; the
message itself is wire-safe (its encoding decodes back to it).  Yet when
a fresh receiver ingests the three fragments in the order 2, 0, 1, the
final state has zero subscriber notifications and an empty `messages`
table: `handle_frag_frame` records each fragment in `seen_cache`, whose
primary key is `message_id` alone, so when the reassembled MSG reaches
`handle_msg_frame`, `mark_seen_if_new` reports it as a duplicate and it
is dropped. -/
theorem frag_reassembly_drops_message :
    (fragmentMessage 100 msgC2).length = 3 ∧
    FrameParser.decode (FrameParser.encode (.msg msgC2))
      = some (.msg msgC2) ∧
    (runFragFrames
      [((0 : Int), (fragmentMessage 100 msgC2).getD 2 ⟨[], 0, 1, []⟩),
       ((1 : Int), (fragmentMessage 100 msgC2).getD 0 ⟨[], 0, 1, []⟩),
       ((2 : Int), (fragmentMessage 100 msgC2).getD 1 ⟨[], 0, 1, []⟩)]
      (initDaemonState 0)).notifications = 0 ∧
    (runFragFrames
      [((0 : Int), (fragmentMessage 100 msgC2).getD 2 ⟨[], 0, 1, []⟩),
       ((1 : Int), (fragmentMessage 100 msgC2).getD 0 ⟨[], 0, 1, []⟩),
       ((2 : Int), (fragmentMessage 100 msgC2).getD 1 ⟨[], 0, 1, []⟩)]
      (initDaemonState 0)).messages = [] := by
  decide

end Rfmpd

namespace Rfmpd

/-! ### UTF-8 round-trip -/

theorem char_toNat_ofNat (n : Nat) (h : n.isValidChar) :
    (Char.ofNat n).toNat = n := by
  unfold Char.ofNat
  rw [dif_pos h]
  rfl

theorem utf8DecodeOne_encodeChar (c : Char) (bs : List Nat) :
    utf8DecodeOne (utf8EncodeChar c ++ bs) = some (c, bs) := by
  have hv : c.toNat < 0xD800 ∨ (0xDFFF < c.toNat ∧ c.toNat < 0x110000) :=
    c.valid
  have hlt : c.toNat < 0x110000 := by omega
  unfold utf8EncodeChar
  by_cases h1 : c.toNat < 0x80
  · rw [if_pos h1]
    simp only [List.cons_append, List.nil_append]
    rw [utf8DecodeOne.eq_def]
    simp only
    rw [if_pos h1, Char.ofNat_toNat]
  · rw [if_neg h1]
    by_cases h2 : c.toNat < 0x800
    · rw [if_pos h2]
      simp only [List.cons_append, List.nil_append]
      rw [utf8DecodeOne.eq_def]
      simp only
      rw [if_neg (by omega), if_neg (by omega), if_pos (by omega),
        if_pos (by omega), if_pos (by omega)]
      have harith : (0xC0 + c.toNat / 0x40 - 0xC0) * 0x40 +
          (0x80 + c.toNat % 0x40 - 0x80) = c.toNat := by omega
      rw [harith, Char.ofNat_toNat]
    · rw [if_neg h2]
      by_cases h3 : c.toNat < 0x10000
      · rw [if_pos h3]
        simp only [List.cons_append, List.nil_append]
        rw [utf8DecodeOne.eq_def]
        simp only
        rw [if_neg (by omega), if_neg (by omega), if_neg (by omega),
          if_pos (by omega), if_pos (by omega), if_pos (by omega)]
        have harith : (0xE0 + c.toNat / 0x1000 - 0xE0) * 0x1000 +
            (0x80 + c.toNat / 0x40 % 0x40 - 0x80) * 0x40 +
            (0x80 + c.toNat % 0x40 - 0x80) = c.toNat := by omega
        rw [harith, Char.ofNat_toNat]
      · rw [if_neg h3]
        simp only [List.cons_append, List.nil_append]
        rw [utf8DecodeOne.eq_def]
        simp only
        rw [if_neg (by omega), if_neg (by omega), if_neg (by omega),
          if_neg (by omega), if_pos (by omega), if_pos (by omega),
          if_pos (by omega)]
        have harith : (0xF0 + c.toNat / 0x40000 - 0xF0) * 0x40000 +
            (0x80 + c.toNat / 0x1000 % 0x40 - 0x80) * 0x1000 +
            (0x80 + c.toNat / 0x40 % 0x40 - 0x80) * 0x40 +
            (0x80 + c.toNat % 0x40 - 0x80) = c.toNat := by omega
        rw [harith, Char.ofNat_toNat]

theorem utf8EncodeChar_length_pos (c : Char) :
    0 < (utf8EncodeChar c).length := by
  unfold utf8EncodeChar
  dsimp only
  split_ifs <;> simp

theorem utf8DecodeLoop_encode :
    ∀ (cs : List Char) (fuel : Nat), (utf8EncodeChars cs).length < fuel →
      utf8DecodeLoop fuel (utf8EncodeChars cs) = some cs := by
  intro cs
  induction cs with
  | nil =>
    intro fuel hf
    match fuel, hf with
    | f + 1, _ => rfl
  | cons c rest ih =>
    intro fuel hf
    have hne : ∃ b t, utf8EncodeChar c = b :: t := by
      rcases h : utf8EncodeChar c with _ | ⟨b, t⟩
      · have := utf8EncodeChar_length_pos c
        rw [h] at this
        simp at this
      · exact ⟨b, t, rfl⟩
    obtain ⟨b, t, hbt⟩ := hne
    have hsplit : utf8EncodeChars (c :: rest)
        = b :: (t ++ utf8EncodeChars rest) := by
      simp [utf8EncodeChars, hbt]
    rw [hsplit] at hf ⊢
    match fuel, hf with
    | f + 1, hf =>
      rw [utf8DecodeLoop]
      have hone : utf8DecodeOne (b :: (t ++ utf8EncodeChars rest))
          = some (c, utf8EncodeChars rest) := by
        have := utf8DecodeOne_encodeChar c (utf8EncodeChars rest)
        rw [hbt] at this
        simpa using this
      rw [hone]
      simp only
      have hlen : (utf8EncodeChars rest).length < f := by
        have hpos := utf8EncodeChar_length_pos c
        rw [hbt] at hpos
        simp only [List.length_cons, List.length_append] at hf
        omega
      rw [ih f hlen]
      rfl

theorem utf8_decode_encodeChars (cs : List Char) :
    utf8Decode (utf8EncodeChars cs) = some cs :=
  utf8DecodeLoop_encode cs ((utf8EncodeChars cs).length + 1)
    (Nat.lt_succ_self _)

end Rfmpd

namespace Rfmpd

/-! ### Decimal round-trip (`int(str(i)) = i`) -/

theorem parseDigitsAux_append (acc : Nat) (xs ys : List Char) :
    parseDigitsAux acc (xs ++ ys)
      = match parseDigitsAux acc xs with
        | some a => parseDigitsAux a ys
        | none => none := by
  induction xs generalizing acc with
  | nil => rfl
  | cons c rest ih =>
    simp only [List.cons_append, parseDigitsAux, List.append_eq]
    by_cases h : 48 ≤ c.toNat ∧ c.toNat ≤ 57
    · rw [if_pos h, if_pos h, ih]
    · rw [if_neg h, if_neg h]

theorem natToDigitsAux_digits :
    ∀ fuel n, n < fuel → ∀ c ∈ natToDigitsAux fuel n,
      48 ≤ c.toNat ∧ c.toNat ≤ 57 := by
  intro fuel
  induction fuel with
  | zero => intro n h; exact absurd h (Nat.not_lt_zero n)
  | succ f ih =>
    intro n h c hc
    simp only [natToDigitsAux] at hc
    by_cases h10 : n < 10
    · rw [if_pos h10] at hc
      simp only [List.mem_singleton] at hc
      subst hc
      rw [char_toNat_ofNat _ (Or.inl (by omega))]
      omega
    · rw [if_neg h10] at hc
      rcases List.mem_append.mp hc with hm | hm
      · exact ih (n / 10) (by omega) c hm
      · simp only [List.mem_singleton] at hm
        subst hm
        rw [char_toNat_ofNat _ (Or.inl (by omega))]
        omega

theorem parse_natToDigitsAux :
    ∀ fuel n acc, n < fuel →
      parseDigitsAux acc (natToDigitsAux fuel n)
        = some (acc * 10 ^ (natToDigitsAux fuel n).length + n) := by
  intro fuel
  induction fuel with
  | zero => intro n acc h; exact absurd h (Nat.not_lt_zero n)
  | succ f ih =>
    intro n acc h
    by_cases h10 : n < 10
    · simp only [natToDigitsAux, if_pos h10]
      have hc : (Char.ofNat (48 + n)).toNat = 48 + n :=
        char_toNat_ofNat _ (Or.inl (by omega))
      simp only [parseDigitsAux]
      rw [if_pos (by rw [hc]; omega), hc]
      simp only [List.length_singleton, pow_one]
      congr 1
      omega
    · simp only [natToDigitsAux, if_neg h10]
      rw [parseDigitsAux_append, ih (n / 10) acc (by omega)]
      simp only
      have hc : (Char.ofNat (48 + n % 10)).toNat = 48 + n % 10 :=
        char_toNat_ofNat _ (Or.inl (by omega))
      simp only [parseDigitsAux]
      rw [if_pos (by rw [hc]; omega), hc]
      simp only [parseDigitsAux, List.length_append, List.length_singleton]
      congr 1
      rw [pow_succ, ← mul_assoc]
      generalize acc * 10 ^ (natToDigitsAux f (n / 10)).length = A
      omega

theorem natToDigitsAux_ne_nil (fuel n : Nat) :
    natToDigitsAux (fuel + 1) n ≠ [] := by
  simp only [natToDigitsAux]
  by_cases h : n < 10
  · simp [h]
  · simp [h]

theorem parseDigits_natToDigits (n : Nat) :
    parseDigits (natToDigits n) = some n := by
  unfold parseDigits natToDigits
  rw [if_neg (natToDigitsAux_ne_nil n n),
    parse_natToDigitsAux (n + 1) n 0 (Nat.lt_succ_self n)]
  simp

theorem pyParseInt_natToDigits (n : Nat) :
    pyParseInt (natToDigits n) = some (n : Int) := by
  have hne : natToDigits n ≠ [] := by
    rw [natToDigits]
    exact natToDigitsAux_ne_nil n n
  have hp : parseDigits (natToDigits n) = some n := parseDigits_natToDigits n
  rcases hd : natToDigits n with _ | ⟨c, rest⟩
  · exact absurd hd hne
  · have hcmem : c ∈ natToDigitsAux (n + 1) n := by
      rw [show natToDigitsAux (n + 1) n = natToDigits n from rfl, hd]
      exact List.mem_cons_self _ _
    have hdig : 48 ≤ c.toNat ∧ c.toNat ≤ 57 :=
      natToDigitsAux_digits (n + 1) n (Nat.lt_succ_self n) c hcmem
    rw [hd] at hp
    simp only [pyParseInt]
    rw [if_neg (by rintro rfl; revert hdig; decide),
      if_neg (by rintro rfl; revert hdig; decide), hp]
    rfl

theorem pyParseInt_intToChars (i : Int) :
    pyParseInt (intToChars i) = some i := by
  unfold intToChars
  by_cases h : i < 0
  · rw [if_pos h]
    simp only [pyParseInt]
    rw [if_pos trivial]
    unfold natToDigits
    rw [show parseDigits (natToDigitsAux (i.natAbs + 1) i.natAbs)
        = some i.natAbs from parseDigits_natToDigits i.natAbs]
    have hni : (-(i.natAbs : Int)) = i := by omega
    simp [hni, abs_of_nonpos (le_of_lt h)]
  · rw [if_neg h, pyParseInt_natToDigits]
    congr 1
    omega

theorem intToChars_mem (i : Int) :
    ∀ c ∈ intToChars i, c.toNat = 45 ∨ (48 ≤ c.toNat ∧ c.toNat ≤ 57) := by
  intro c hc
  unfold intToChars at hc
  by_cases h : i < 0
  · rw [if_pos h] at hc
    rcases List.mem_cons.mp hc with rfl | hmem
    · left
      rfl
    · right
      exact natToDigitsAux_digits (i.natAbs + 1) i.natAbs
        (Nat.lt_succ_self _) c hmem
  · rw [if_neg h] at hc
    right
    exact natToDigitsAux_digits (i.natAbs + 1) i.natAbs
      (Nat.lt_succ_self _) c hc

theorem pipe_not_mem_intToChars (i : Int) : '|' ∉ intToChars i := by
  intro h
  rcases intToChars_mem i _ h with h45 | hd
  · exact absurd h45 (by decide)
  · revert hd
    decide

theorem comma_not_mem_intToChars (i : Int) : ',' ∉ intToChars i := by
  intro h
  rcases intToChars_mem i _ h with h45 | hd
  · exact absurd h45 (by decide)
  · revert hd
    decide

end Rfmpd

namespace Rfmpd

/-! ### Base64 round-trip -/

theorem b64Value_b64Char : ∀ v, v < 64 → b64Value (b64Char v) = some v := by
  decide

theorem b64Char_ne_eq (v : Nat) : b64Char v ≠ '=' := by
  by_cases h : v < 64
  · revert h
    revert v
    decide
  · unfold b64Char
    rw [List.getD_eq_default _ _ (by
      rw [show ("ABCDEFGHIJKLMNOPQRSTUVWXYZabcdefghijklmnopqrstuvwxyz0123456789+/".data).length
          = 64 from by decide]
      omega)]
    decide

theorem b64Char_ne_pipe (v : Nat) : b64Char v ≠ '|' := by
  by_cases h : v < 64
  · revert h
    revert v
    decide
  · unfold b64Char
    rw [List.getD_eq_default _ _ (by
      rw [show ("ABCDEFGHIJKLMNOPQRSTUVWXYZabcdefghijklmnopqrstuvwxyz0123456789+/".data).length
          = 64 from by decide]
      omega)]
    decide

theorem b64_roundtrip_aux :
    ∀ (n : Nat) (bs : List Nat), bs.length ≤ n → (∀ b ∈ bs, b < 256) →
      b64DecodeList (b64EncodeList bs) = some bs := by
  intro n
  induction n with
  | zero =>
    intro bs hlen hb
    rcases bs with _ | ⟨a, rest⟩
    · rfl
    · simp at hlen
  | succ m ih =>
    intro bs hlen hb
    rcases bs with _ | ⟨a, _ | ⟨b, _ | ⟨c, rest⟩⟩⟩
    · rfl
    · have ha : a < 256 := hb a (by simp)
      simp only [b64EncodeList]
      rw [b64DecodeList.eq_def]
      simp only
      rw [b64Value_b64Char _ (by omega), b64Value_b64Char _ (by omega)]
      simp only
      rw [if_pos trivial, if_pos ⟨trivial, trivial⟩,
        show a / 4 * 4 + a % 4 * 16 / 16 = a from by omega]
    · have ha : a < 256 := hb a (by simp)
      have hbb : b < 256 := hb b (by simp)
      simp only [b64EncodeList]
      rw [b64DecodeList.eq_def]
      simp only
      rw [b64Value_b64Char _ (by omega), b64Value_b64Char _ (by omega)]
      simp only
      rw [if_neg (b64Char_ne_eq _), b64Value_b64Char _ (by omega)]
      simp only
      rw [if_pos trivial, if_pos trivial,
        show a / 4 * 4 + (a % 4 * 16 + b / 16) / 16 = a from by omega,
        show (a % 4 * 16 + b / 16) % 16 * 16 + b % 16 * 4 / 4 = b from by
          omega]
    · have ha : a < 256 := hb a (by simp)
      have hbb : b < 256 := hb b (by simp)
      have hcc : c < 256 := hb c (by simp)
      have hrest : ∀ x ∈ rest, x < 256 := fun x hx => hb x (by simp [hx])
      have hlen' : rest.length ≤ m := by
        simp only [List.length_cons] at hlen
        omega
      simp only [b64EncodeList]
      rw [b64DecodeList.eq_def]
      simp only
      rw [b64Value_b64Char _ (by omega), b64Value_b64Char _ (by omega)]
      simp only
      rw [if_neg (b64Char_ne_eq _), b64Value_b64Char _ (by omega)]
      simp only
      rw [if_neg (b64Char_ne_eq _), b64Value_b64Char _ (by omega)]
      simp only
      rw [ih rest hlen' hrest]
      simp only [Option.map_some']
      rw [show a / 4 * 4 + (a % 4 * 16 + b / 16) / 16 = a from by omega,
        show (a % 4 * 16 + b / 16) % 16 * 16 + (b % 16 * 4 + c / 64) / 4 = b
          from by omega,
        show (b % 16 * 4 + c / 64) % 4 * 64 + c % 64 = c from by omega]

theorem b64EncodeList_no_pipe :
    ∀ (n : Nat) (bs : List Nat), bs.length ≤ n → '|' ∉ b64EncodeList bs := by
  intro n
  induction n with
  | zero =>
    intro bs hlen
    rcases bs with _ | ⟨a, rest⟩
    · simp [b64EncodeList]
    · simp at hlen
  | succ m ih =>
    intro bs hlen
    rcases bs with _ | ⟨a, _ | ⟨b, _ | ⟨c, rest⟩⟩⟩
    · simp [b64EncodeList]
    · simp only [b64EncodeList]
      intro hmem
      simp only [List.mem_cons, List.not_mem_nil, or_false] at hmem
      rcases hmem with h | h | h | h
      · exact b64Char_ne_pipe _ h.symm
      · exact b64Char_ne_pipe _ h.symm
      · exact absurd h (by decide)
      · exact absurd h (by decide)
    · simp only [b64EncodeList]
      intro hmem
      simp only [List.mem_cons, List.not_mem_nil, or_false] at hmem
      rcases hmem with h | h | h | h
      · exact b64Char_ne_pipe _ h.symm
      · exact b64Char_ne_pipe _ h.symm
      · exact b64Char_ne_pipe _ h.symm
      · exact absurd h (by decide)
    · simp only [b64EncodeList]
      intro hmem
      simp only [List.mem_cons] at hmem
      rcases hmem with h | h | h | h | hmem2
      · exact b64Char_ne_pipe _ h.symm
      · exact b64Char_ne_pipe _ h.symm
      · exact b64Char_ne_pipe _ h.symm
      · exact b64Char_ne_pipe _ h.symm
      · exact ih rest (by simp only [List.length_cons] at hlen; omega) hmem2

end Rfmpd

namespace Rfmpd

/-! ### Split/join round-trip -/

theorem splitOnChar_no_sep (sep : Char) (p : List Char) (h : sep ∉ p) :
    splitOnChar sep p = [p] := by
  induction p with
  | nil => rfl
  | cons c rest ih =>
    have hc : ¬ c = sep := by
      intro he
      subst he
      exact h (List.mem_cons_self _ _)
    simp only [splitOnChar]
    rw [if_neg hc, ih (fun hm => h (List.mem_cons_of_mem _ hm))]

theorem splitOnChar_append_sep (sep : Char) (p t : List Char)
    (h : sep ∉ p) :
    splitOnChar sep (p ++ sep :: t) = p :: splitOnChar sep t := by
  induction p with
  | nil =>
    simp only [List.nil_append, splitOnChar]
    rw [if_pos trivial]
  | cons c rest ih =>
    have hc : ¬ c = sep := by
      intro he
      subst he
      exact h (List.mem_cons_self _ _)
    simp only [List.cons_append, splitOnChar, List.append_eq]
    rw [if_neg hc, ih (fun hm => h (List.mem_cons_of_mem _ hm))]

theorem splitOnChar_joinChar (sep : Char) :
    ∀ parts : List (List Char), parts ≠ [] → (∀ p ∈ parts, sep ∉ p) →
      splitOnChar sep (joinChar sep parts) = parts := by
  intro parts
  induction parts with
  | nil =>
    intro h
    exact absurd rfl h
  | cons p rest ih =>
    intro _ hall
    rcases rest with _ | ⟨q, rest2⟩
    · simp only [joinChar]
      exact splitOnChar_no_sep sep p (hall p (List.mem_cons_self _ _))
    · simp only [joinChar]
      rw [splitOnChar_append_sep sep p _ (hall p (List.mem_cons_self _ _)),
        ih (by simp) (fun r hr => hall r (List.mem_cons_of_mem _ hr))]

theorem splitFirstEq_append (k v : List Char) (h : '=' ∉ k) :
    splitFirstEq (k ++ '=' :: v) = some (k, v) := by
  induction k with
  | nil =>
    simp only [List.nil_append, splitFirstEq]
    rw [if_pos trivial]
  | cons c rest ih =>
    have hc : ¬ c = '=' := by
      intro he
      subst he
      exact h (List.mem_cons_self _ _)
    simp only [List.cons_append, splitFirstEq, List.append_eq]
    rw [if_neg hc, ih (fun hm => h (List.mem_cons_of_mem _ hm))]
    rfl

theorem collectFields_enc :
    ∀ fields : List (List Char × List Char),
      (∀ kv ∈ fields, '=' ∉ kv.1) →
      collectFields (fields.map (fun kv => kv.1 ++ '=' :: kv.2))
        = fields := by
  intro fields
  induction fields with
  | nil =>
    intro _
    rfl
  | cons kv rest ih =>
    intro hall
    unfold collectFields
    simp only [List.map_cons, List.filterMap_cons]
    rw [splitFirstEq_append _ _ (hall kv (List.mem_cons_self _ _))]
    have hrest := ih (fun x hx => hall x (List.mem_cons_of_mem _ hx))
    unfold collectFields at hrest
    rw [hrest]

theorem mem_joinChar (sep : Char) :
    ∀ (parts : List (List Char)) (c : Char), c ∈ joinChar sep parts →
      c = sep ∨ ∃ p ∈ parts, c ∈ p := by
  intro parts
  induction parts with
  | nil =>
    intro c hc
    simp [joinChar] at hc
  | cons p rest ih =>
    intro c hc
    rcases rest with _ | ⟨q, rest2⟩
    · right
      exact ⟨p, List.mem_cons_self _ _, by simpa [joinChar] using hc⟩
    · simp only [joinChar] at hc
      rcases List.mem_append.mp hc with h | h
      · right
        exact ⟨p, List.mem_cons_self _ _, h⟩
      · rcases List.mem_cons.mp h with rfl | h2
        · left
          rfl
        · rcases ih c h2 with h3 | ⟨r, hr, hcr⟩
          · left
            exact h3
          · right
            exact ⟨r, List.mem_cons_of_mem _ hr, hcr⟩

theorem mapM_pyParseInt (l : List Int) :
    (l.map intToChars).mapM pyParseInt = some l := by
  induction l with
  | nil => rfl
  | cons x rest ih =>
    simp only [List.map_cons, List.mapM_cons, pyParseInt_intToChars, ih]
    rfl

end Rfmpd

namespace Rfmpd

/-! ### `from_dict ∘ to_dict` for each frame type -/

theorem fieldGet_msg_id (m : MSG) :
    fieldGet (MSG.toDict m) ['i', 'd'] = some m.id := rfl

theorem fieldGet_msg_from (m : MSG) :
    fieldGet (MSG.toDict m) ['f', 'r', 'o', 'm'] = some m.fromNode := rfl

theorem fieldGet_msg_time (m : MSG) :
    fieldGet (MSG.toDict m) ['t', 'i', 'm', 'e'] = some m.timestamp := rfl

theorem fieldGet_msg_chan (m : MSG) :
    fieldGet (MSG.toDict m) ['c', 'h', 'a', 'n'] = some m.channel := rfl

theorem fieldGet_msg_prio (m : MSG) :
    fieldGet (MSG.toDict m) ['p', 'r', 'i', 'o']
      = some (intToChars m.priority) := rfl

theorem fieldGet_msg_reply (m : MSG) :
    fieldGet (MSG.toDict m) ['r', 'e', 'p', 'l', 'y']
      = some (match m.replyTo with
        | none => ['-']
        | some r => if r = [] then ['-'] else r) := rfl

theorem fieldGet_msg_body (m : MSG) :
    fieldGet (MSG.toDict m) ['b', 'o', 'd', 'y'] = some m.body := rfl

theorem msg_fromDict_toDict (m : MSG) (hv : MSG.valid m = true)
    (hr1 : m.replyTo ≠ some []) (hr2 : m.replyTo ≠ some ['-']) :
    MSG.fromDict (MSG.toDict m) = some m := by
  obtain ⟨i, f, t, ch, p, rep, b⟩ := m
  rcases rep with _ | r
  · simp only [MSG.fromDict, fieldGet_msg_id, fieldGet_msg_from,
      fieldGet_msg_time, fieldGet_msg_chan, fieldGet_msg_prio,
      fieldGet_msg_reply, fieldGet_msg_body, pyParseInt_intToChars]
    simp [MSG.make, hv]
  · have hr1' : r ≠ [] := fun he => hr1 (by rw [he])
    have hr2' : r ≠ ['-'] := fun he => hr2 (by rw [he])
    simp only [MSG.fromDict, fieldGet_msg_id, fieldGet_msg_from,
      fieldGet_msg_time, fieldGet_msg_chan, fieldGet_msg_prio,
      fieldGet_msg_reply, fieldGet_msg_body, pyParseInt_intToChars]
    rw [if_neg hr1', if_neg hr2']
    simp [MSG.make, hv]

end Rfmpd

namespace Rfmpd

theorem fieldGet_frag_msgid (f : FRAG) :
    fieldGet (FRAG.toDict f) ['m', 's', 'g', 'i', 'd']
      = some f.messageId := rfl

theorem fieldGet_frag_idx (f : FRAG) :
    fieldGet (FRAG.toDict f) ['i', 'd', 'x']
      = some (intToChars f.idx) := rfl

theorem fieldGet_frag_total (f : FRAG) :
    fieldGet (FRAG.toDict f) ['t', 'o', 't', 'a', 'l']
      = some (intToChars f.total) := rfl

theorem fieldGet_frag_data (f : FRAG) :
    fieldGet (FRAG.toDict f) ['d', 'a', 't', 'a']
      = some (b64EncodeList f.data) := rfl

theorem frag_fromDict_toDict (f : FRAG)
    (hv : ¬ (f.idx < 0 ∨ f.total ≤ f.idx))
    (hd : ∀ x ∈ f.data, x < 256) :
    FRAG.fromDict (FRAG.toDict f) = some f := by
  simp only [FRAG.fromDict, fieldGet_frag_msgid, fieldGet_frag_idx,
    fieldGet_frag_total, fieldGet_frag_data, pyParseInt_intToChars,
    b64_roundtrip_aux f.data.length f.data (le_refl _) hd]
  simp [FRAG.make, hv]

theorem fieldGet_sync_from (s : SYNC) :
    fieldGet (SYNC.toDict s) ['f', 'r', 'o', 'm']
      = some s.fromNode := rfl

theorem fieldGet_sync_bf0 (s : SYNC) :
    fieldGet (SYNC.toDict s) ['b', 'f', '0']
      = some (b64EncodeList (s.bloomFilters.getD 0 [])) := rfl

theorem fieldGet_sync_bf1 (s : SYNC) :
    fieldGet (SYNC.toDict s) ['b', 'f', '1']
      = some (b64EncodeList (s.bloomFilters.getD 1 [])) := rfl

theorem fieldGet_sync_bf2 (s : SYNC) :
    fieldGet (SYNC.toDict s) ['b', 'f', '2']
      = some (b64EncodeList (s.bloomFilters.getD 2 [])) := rfl

theorem fieldGet_sync_win (s : SYNC) :
    fieldGet (SYNC.toDict s) ['w', 'i', 'n']
      = some (intToChars s.windowIndex) := rfl

theorem sync_fromDict_toDict (s : SYNC)
    (hlen : s.bloomFilters.length = 3)
    (hw : 0 ≤ s.windowIndex ∧ s.windowIndex ≤ 2)
    (hb : ∀ bf ∈ s.bloomFilters, ∀ x ∈ bf, x < 256) :
    SYNC.fromDict (SYNC.toDict s) = some s := by
  obtain ⟨f, bfs, w⟩ := s
  rcases bfs with _ | ⟨b0, _ | ⟨b1, _ | ⟨b2, _ | ⟨b3, rest⟩⟩⟩⟩
  · simp at hlen
  · simp at hlen
  · simp at hlen
  · have h0 : ∀ x ∈ b0, x < 256 := hb b0 (by simp)
    have h1 : ∀ x ∈ b1, x < 256 := hb b1 (by simp)
    have h2 : ∀ x ∈ b2, x < 256 := hb b2 (by simp)
    simp only [SYNC.fromDict, fieldGet_sync_from, fieldGet_sync_bf0,
      fieldGet_sync_bf1, fieldGet_sync_bf2, fieldGet_sync_win,
      pyParseInt_intToChars, List.getD_cons_zero, List.getD_cons_succ]
    rw [b64_roundtrip_aux b0.length b0 (le_refl _) h0,
      b64_roundtrip_aux b1.length b1 (le_refl _) h1,
      b64_roundtrip_aux b2.length b2 (le_refl _) h2]
    simp [SYNC.make, hw.1, hw.2]
  · simp only [List.length_cons] at hlen
    omega

theorem req_fromDict_toDict (r : REQ)
    (hm : r.missingFragments ≠ some []) :
    REQ.fromDict (REQ.toDict r) = some r := by
  obtain ⟨f, mid, miss⟩ := r
  rcases miss with _ | ⟨_ | ⟨x, xs⟩⟩
  · rfl
  · exact absurd rfl hm
  · have hfrom : fieldGet (REQ.toDict ⟨f, mid, some (x :: xs)⟩)
        ['f', 'r', 'o', 'm'] = some f := rfl
    have hmsgid : fieldGet (REQ.toDict ⟨f, mid, some (x :: xs)⟩)
        ['m', 's', 'g', 'i', 'd'] = some mid := rfl
    have hmiss : fieldGet (REQ.toDict ⟨f, mid, some (x :: xs)⟩)
        ['m', 'i', 's', 's', 'i', 'n', 'g']
        = some (joinChar ',' ((x :: xs).map intToChars)) := rfl
    simp only [REQ.fromDict, hfrom, hmsgid, hmiss]
    rw [splitOnChar_joinChar ',' ((x :: xs).map intToChars) (by simp)
        (fun p hp => by
          obtain ⟨y, _, rfl⟩ := List.mem_map.mp hp
          exact comma_not_mem_intToChars y),
      mapM_pyParseInt]

end Rfmpd

namespace Rfmpd

/-! ### Full-frame round-trip -/

theorem not_mem_of_all_ne (l : List Char) (x : Char)
    (h : l.all (fun c => c ≠ x) = true) : x ∉ l := by
  intro hmem
  have := List.all_eq_true.mp h x hmem
  simp at this

theorem pipe_not_mem_part (k v : List Char) (hk : '|' ∉ k)
    (hv : '|' ∉ v) : '|' ∉ k ++ '=' :: v := by
  intro h
  rcases List.mem_append.mp h with h | h
  · exact hk h
  · rcases List.mem_cons.mp h with h | h
    · exact absurd h (by decide)
    · exact hv h

theorem msgWireSafe_valid (m : MSG) (h : msgWireSafe m = true) :
    MSG.valid m = true := by
  simp only [msgWireSafe, Bool.and_eq_true] at h
  exact h.1.1.1.1.1.1

theorem msgWireSafe_reply_ne_nil (m : MSG) (h : msgWireSafe m = true) :
    m.replyTo ≠ some [] := by
  simp only [msgWireSafe, Bool.and_eq_true] at h
  have hrep := h.2
  intro he
  rw [he] at hrep
  simp at hrep

theorem msgWireSafe_reply_ne_dash (m : MSG) (h : msgWireSafe m = true) :
    m.replyTo ≠ some ['-'] := by
  simp only [msgWireSafe, Bool.and_eq_true] at h
  have hrep := h.2
  intro he
  rw [he] at hrep
  simp at hrep

theorem msg_parts_pipe_free (m : MSG) (h : msgWireSafe m = true) :
    ∀ p ∈ ("MSG".data :: (MSG.toDict m).map
      (fun kv => kv.1 ++ '=' :: kv.2)), '|' ∉ p := by
  simp only [msgWireSafe, Bool.and_eq_true] at h
  obtain ⟨⟨⟨⟨⟨⟨hvalid, hid⟩, hfrom⟩, htime⟩, hchan⟩, hbody⟩, hrep⟩ := h
  intro p hp
  rcases List.mem_cons.mp hp with rfl | hp2
  · decide
  · obtain ⟨kv, hkv, rfl⟩ := List.mem_map.mp hp2
    simp only [MSG.toDict, List.mem_cons, List.not_mem_nil, or_false]
      at hkv
    rcases hkv with rfl | rfl | rfl | rfl | rfl | rfl | rfl
    · exact pipe_not_mem_part _ _ (by simp) (not_mem_of_all_ne _ _ hid)
    · exact pipe_not_mem_part _ _ (by simp) (not_mem_of_all_ne _ _ hfrom)
    · exact pipe_not_mem_part _ _ (by simp) (not_mem_of_all_ne _ _ htime)
    · exact pipe_not_mem_part _ _ (by simp) (not_mem_of_all_ne _ _ hchan)
    · exact pipe_not_mem_part _ _ (by simp) (pipe_not_mem_intToChars _)
    · refine pipe_not_mem_part _ _ (by simp) ?_
      show '|' ∉ (match m.replyTo with
        | none => ['-']
        | some r => if r = [] then ['-'] else r)
      rcases hr : m.replyTo with _ | r
      · simp
      · rw [hr] at hrep
        simp only [Bool.and_eq_true] at hrep
        obtain ⟨⟨hne, -⟩, hall⟩ := hrep
        simp only
        rw [if_neg (by simpa using hne)]
        exact not_mem_of_all_ne _ _ hall
    · exact pipe_not_mem_part _ _ (by simp) (not_mem_of_all_ne _ _ hbody)

theorem msg_keys_eq_free (m : MSG) :
    ∀ kv ∈ MSG.toDict m, '=' ∉ kv.1 := by
  intro kv hkv
  simp only [MSG.toDict, List.mem_cons, List.not_mem_nil, or_false] at hkv
  rcases hkv with rfl | rfl | rfl | rfl | rfl | rfl | rfl
  all_goals simp

theorem msg_decodeText_encodeText (m : MSG) (h : msgWireSafe m = true) :
    FrameParser.decodeText (FrameParser.encodeText (.msg m))
      = some (.msg m) := by
  unfold FrameParser.encodeText FrameParser.decodeText
  simp only [Frame.typeStr, Frame.toDict]
  rw [splitOnChar_joinChar '|' _ (by simp) (msg_parts_pipe_free m h)]
  simp only
  rw [if_pos trivial,
    collectFields_enc (MSG.toDict m) (msg_keys_eq_free m),
    msg_fromDict_toDict m (msgWireSafe_valid m h)
      (msgWireSafe_reply_ne_nil m h) (msgWireSafe_reply_ne_dash m h)]
  rfl

end Rfmpd

namespace Rfmpd

theorem fragWireSafe_bounds (f : FRAG) (h : fragWireSafe f = true) :
    ¬ (f.idx < 0 ∨ f.total ≤ f.idx) := by
  simp only [fragWireSafe, Bool.and_eq_true] at h
  have h1 := h.1.1
  simp at h1
  rintro (hx | hx)
  · omega
  · omega

theorem fragWireSafe_data (f : FRAG) (h : fragWireSafe f = true) :
    ∀ x ∈ f.data, x < 256 := by
  simp only [fragWireSafe, Bool.and_eq_true] at h
  intro x hx
  have := List.all_eq_true.mp h.2 x hx
  simpa using this

theorem frag_parts_pipe_free (f : FRAG) (h : fragWireSafe f = true) :
    ∀ p ∈ ("FRAG".data :: (FRAG.toDict f).map
      (fun kv => kv.1 ++ '=' :: kv.2)), '|' ∉ p := by
  simp only [fragWireSafe, Bool.and_eq_true] at h
  obtain ⟨⟨-, hmid⟩, -⟩ := h
  intro p hp
  rcases List.mem_cons.mp hp with rfl | hp2
  · decide
  · obtain ⟨kv, hkv, rfl⟩ := List.mem_map.mp hp2
    simp only [FRAG.toDict, List.mem_cons, List.not_mem_nil, or_false]
      at hkv
    rcases hkv with rfl | rfl | rfl | rfl
    · exact pipe_not_mem_part _ _ (by simp) (not_mem_of_all_ne _ _ hmid)
    · exact pipe_not_mem_part _ _ (by simp) (pipe_not_mem_intToChars _)
    · exact pipe_not_mem_part _ _ (by simp) (pipe_not_mem_intToChars _)
    · exact pipe_not_mem_part _ _ (by simp)
        (b64EncodeList_no_pipe f.data.length _ (le_refl _))

theorem frag_keys_eq_free (f : FRAG) :
    ∀ kv ∈ FRAG.toDict f, '=' ∉ kv.1 := by
  intro kv hkv
  simp only [FRAG.toDict, List.mem_cons, List.not_mem_nil, or_false] at hkv
  rcases hkv with rfl | rfl | rfl | rfl
  all_goals simp

theorem frag_decodeText_encodeText (f : FRAG) (h : fragWireSafe f = true) :
    FrameParser.decodeText (FrameParser.encodeText (.frag f))
      = some (.frag f) := by
  unfold FrameParser.encodeText FrameParser.decodeText
  simp only [Frame.typeStr, Frame.toDict]
  rw [splitOnChar_joinChar '|' _ (by simp) (frag_parts_pipe_free f h)]
  simp only
  rw [if_pos trivial,
    collectFields_enc (FRAG.toDict f) (frag_keys_eq_free f),
    frag_fromDict_toDict f (fragWireSafe_bounds f h) (fragWireSafe_data f h)]
  rfl

theorem syncWireSafe_parts (s : SYNC) (h : syncWireSafe s = true) :
    s.bloomFilters.length = 3 ∧
    (0 ≤ s.windowIndex ∧ s.windowIndex ≤ 2) ∧
    (∀ bf ∈ s.bloomFilters, ∀ x ∈ bf, x < 256) := by
  simp only [syncWireSafe, Bool.and_eq_true] at h
  obtain ⟨⟨⟨⟨hlen, hw0⟩, hw2⟩, -⟩, hbfs⟩ := h
  refine ⟨by simpa using hlen, ⟨by simpa using hw0, by simpa using hw2⟩,
    ?_⟩
  intro bf hbf x hx
  have h1 := List.all_eq_true.mp hbfs bf hbf
  have h2 := List.all_eq_true.mp h1 x hx
  simpa using h2

theorem sync_parts_pipe_free (s : SYNC) (h : syncWireSafe s = true) :
    ∀ p ∈ ("SYNC".data :: (SYNC.toDict s).map
      (fun kv => kv.1 ++ '=' :: kv.2)), '|' ∉ p := by
  simp only [syncWireSafe, Bool.and_eq_true] at h
  obtain ⟨⟨-, hfrom⟩, -⟩ := h
  intro p hp
  rcases List.mem_cons.mp hp with rfl | hp2
  · decide
  · obtain ⟨kv, hkv, rfl⟩ := List.mem_map.mp hp2
    simp only [SYNC.toDict, List.mem_cons, List.not_mem_nil, or_false]
      at hkv
    rcases hkv with rfl | rfl | rfl | rfl | rfl
    · exact pipe_not_mem_part _ _ (by simp) (not_mem_of_all_ne _ _ hfrom)
    · exact pipe_not_mem_part _ _ (by simp)
        (b64EncodeList_no_pipe (s.bloomFilters.getD 0 []).length _
          (le_refl _))
    · exact pipe_not_mem_part _ _ (by simp)
        (b64EncodeList_no_pipe (s.bloomFilters.getD 1 []).length _
          (le_refl _))
    · exact pipe_not_mem_part _ _ (by simp)
        (b64EncodeList_no_pipe (s.bloomFilters.getD 2 []).length _
          (le_refl _))
    · exact pipe_not_mem_part _ _ (by simp) (pipe_not_mem_intToChars _)

theorem sync_keys_eq_free (s : SYNC) :
    ∀ kv ∈ SYNC.toDict s, '=' ∉ kv.1 := by
  intro kv hkv
  simp only [SYNC.toDict, List.mem_cons, List.not_mem_nil, or_false] at hkv
  rcases hkv with rfl | rfl | rfl | rfl | rfl
  all_goals simp

theorem sync_decodeText_encodeText (s : SYNC) (h : syncWireSafe s = true) :
    FrameParser.decodeText (FrameParser.encodeText (.sync s))
      = some (.sync s) := by
  obtain ⟨hlen, hw, hb⟩ := syncWireSafe_parts s h
  unfold FrameParser.encodeText FrameParser.decodeText
  simp only [Frame.typeStr, Frame.toDict]
  rw [splitOnChar_joinChar '|' _ (by simp) (sync_parts_pipe_free s h)]
  simp only
  rw [if_pos trivial,
    collectFields_enc (SYNC.toDict s) (sync_keys_eq_free s),
    sync_fromDict_toDict s hlen hw hb]
  rfl

end Rfmpd

namespace Rfmpd

theorem reqWireSafe_missing (r : REQ) (h : reqWireSafe r = true) :
    r.missingFragments ≠ some [] := by
  simp only [reqWireSafe, Bool.and_eq_true] at h
  have h2 := h.2
  simpa using h2

theorem req_parts_pipe_free (r : REQ) (h : reqWireSafe r = true) :
    ∀ p ∈ ("REQ".data :: (REQ.toDict r).map
      (fun kv => kv.1 ++ '=' :: kv.2)), '|' ∉ p := by
  obtain ⟨f, mid, miss⟩ := r
  simp only [reqWireSafe, Bool.and_eq_true] at h
  obtain ⟨⟨hfrom, hmid⟩, -⟩ := h
  intro p hp
  rcases List.mem_cons.mp hp with rfl | hp2
  · decide
  · obtain ⟨kv, hkv, rfl⟩ := List.mem_map.mp hp2
    rcases miss with _ | ⟨_ | ⟨x, xs⟩⟩
    · simp only [REQ.toDict, List.mem_cons, List.not_mem_nil, or_false,
        List.append_nil, List.mem_append] at hkv
      rcases hkv with rfl | rfl
      · exact pipe_not_mem_part _ _ (by simp) (not_mem_of_all_ne _ _ hfrom)
      · exact pipe_not_mem_part _ _ (by simp) (not_mem_of_all_ne _ _ hmid)
    · simp only [REQ.toDict, List.mem_cons, List.not_mem_nil, or_false,
        List.append_nil, List.mem_append] at hkv
      rcases hkv with rfl | rfl
      · exact pipe_not_mem_part _ _ (by simp) (not_mem_of_all_ne _ _ hfrom)
      · exact pipe_not_mem_part _ _ (by simp) (not_mem_of_all_ne _ _ hmid)
    · simp only [REQ.toDict, List.mem_cons, List.not_mem_nil, or_false,
        List.append_nil, List.mem_append, List.cons_append,
        List.nil_append] at hkv
      rcases hkv with rfl | rfl | rfl
      · exact pipe_not_mem_part _ _ (by simp) (not_mem_of_all_ne _ _ hfrom)
      · exact pipe_not_mem_part _ _ (by simp) (not_mem_of_all_ne _ _ hmid)
      · refine pipe_not_mem_part _ _ (by simp) ?_
        intro hc
        rcases mem_joinChar ',' _ '|' hc with h44 | ⟨q, hq, hcq⟩
        · exact absurd h44 (by decide)
        · obtain ⟨y, -, rfl⟩ := List.mem_map.mp hq
          exact pipe_not_mem_intToChars y hcq

theorem req_keys_eq_free (r : REQ) :
    ∀ kv ∈ REQ.toDict r, '=' ∉ kv.1 := by
  obtain ⟨f, mid, miss⟩ := r
  intro kv hkv
  rcases miss with _ | ⟨_ | ⟨x, xs⟩⟩
  · simp only [REQ.toDict, List.mem_cons, List.not_mem_nil, or_false,
      List.append_nil, List.mem_append] at hkv
    rcases hkv with rfl | rfl
    all_goals simp
  · simp only [REQ.toDict, List.mem_cons, List.not_mem_nil, or_false,
      List.append_nil, List.mem_append] at hkv
    rcases hkv with rfl | rfl
    all_goals simp
  · simp only [REQ.toDict, List.mem_cons, List.not_mem_nil, or_false,
      List.append_nil, List.mem_append, List.cons_append,
      List.nil_append] at hkv
    rcases hkv with rfl | rfl | rfl
    all_goals simp

theorem req_decodeText_encodeText (r : REQ) (h : reqWireSafe r = true) :
    FrameParser.decodeText (FrameParser.encodeText (.req r))
      = some (.req r) := by
  have hm := reqWireSafe_missing r h
  obtain ⟨f, mid, miss⟩ := r
  rcases miss with _ | ⟨_ | ⟨x, xs⟩⟩
  · unfold FrameParser.encodeText FrameParser.decodeText
    simp only [Frame.typeStr, Frame.toDict]
    rw [splitOnChar_joinChar '|' _ (by simp)
      (req_parts_pipe_free ⟨f, mid, none⟩ h)]
    simp only
    rw [if_pos trivial,
      collectFields_enc _ (req_keys_eq_free ⟨f, mid, none⟩),
      req_fromDict_toDict ⟨f, mid, none⟩ hm]
    rfl
  · exact absurd rfl hm
  · unfold FrameParser.encodeText FrameParser.decodeText
    simp only [Frame.typeStr, Frame.toDict]
    rw [splitOnChar_joinChar '|' _ (by simp)
      (req_parts_pipe_free ⟨f, mid, some (x :: xs)⟩ h)]
    simp only
    rw [if_pos trivial,
      collectFields_enc _ (req_keys_eq_free ⟨f, mid, some (x :: xs)⟩),
      req_fromDict_toDict ⟨f, mid, some (x :: xs)⟩ hm]
    rfl

theorem frame_roundtrip_aux (fr : Frame) (h : wireSafe fr = true) :
    FrameParser.decode (FrameParser.encode fr) = some fr := by
  have hdec : FrameParser.decodeText (FrameParser.encodeText fr)
      = some fr := by
    cases fr with
    | msg m => exact msg_decodeText_encodeText m h
    | frag f => exact frag_decodeText_encodeText f h
    | sync s => exact sync_decodeText_encodeText s h
    | req r => exact req_decodeText_encodeText r h
  unfold FrameParser.decode FrameParser.encode
  rw [utf8_decode_encodeChars]
  simpa using hdec

end Rfmpd

namespace Rfmpd

set_option maxRecDepth 100000 in
/-- C3: the codec round-trip fails on a valid MSG.  `msgPipeBody` passes
every `MSG.__post_init__` validation, yet its body contains `|`, so the
encoder's pipe-delimited framing is broken on decode and
`decode (encode r)` does not return `r`. -/
theorem msg_codec_roundtrip_fails :
    MSG.valid msgPipeBody = true ∧
    FrameParser.decode (FrameParser.encode (.msg msgPipeBody))
      ≠ some (.msg msgPipeBody) := by
  decide

/-- C3 (amended): for every wire-safe frame — valid fields, no `|` in
any textual value, `reply` neither empty nor the literal `-`, `missing`
not the empty list, binary fields genuine bytes —
`FrameParser.decode (FrameParser.encode r) = some r`.  Numeric and
base64-coded fields need no side condition. -/
theorem frame_codec_roundtrip (fr : Frame) (h : wireSafe fr = true) :
    FrameParser.decode (FrameParser.encode fr) = some fr :=
  frame_roundtrip_aux fr h

set_option maxRecDepth 100000 in
theorem frame_codec_roundtrip_witness :
    wireSafe (.msg msgWire) = true ∧
    FrameParser.decode (FrameParser.encode (.msg msgWire))
      = some (.msg msgWire) :=
  ⟨by decide, frame_codec_roundtrip (.msg msgWire) (by decide)⟩

/-! ### Fragmentation (claim C9) -/

theorem le_ceil_mul (L fs : Nat) (hfs : 0 < fs) :
    L ≤ ((L + fs - 1) / fs) * fs := by
  have hdm := Nat.div_add_mod (L + fs - 1) fs
  have hmlt : (L + fs - 1) % fs < fs := Nat.mod_lt _ hfs
  rw [Nat.mul_comm] at hdm
  generalize hq : (L + fs - 1) / fs * fs = A at hdm ⊢
  generalize hr : (L + fs - 1) % fs = r at hdm hmlt
  omega

theorem flatten_chunks (fs : Nat) :
    ∀ (k : Nat) (l : List Nat), l.length ≤ k * fs →
      ((List.range k).map (fun i => (l.drop (i * fs)).take fs)).flatten
        = l := by
  intro k
  induction k with
  | zero =>
    intro l hl
    simp only [Nat.zero_mul, Nat.le_zero] at hl
    rcases l with _ | ⟨a, t⟩
    · rfl
    · simp at hl
  | succ n ih =>
    intro l hl
    rw [Nat.succ_mul] at hl
    rw [List.range_succ_eq_map]
    simp only [List.map_cons, List.map_map, List.flatten_cons]
    have hmap : (List.map ((fun i => (l.drop (i * fs)).take fs) ∘ Nat.succ)
        (List.range n))
        = List.map (fun i => ((l.drop fs).drop (i * fs)).take fs)
          (List.range n) := by
      apply List.map_congr_left
      intro i _
      simp only [Function.comp]
      rw [List.drop_drop, Nat.succ_mul, Nat.add_comm (i * fs) fs]
    rw [hmap, ih (l.drop fs) (by simp only [List.length_drop]; omega)]
    simp only [Nat.zero_mul, List.drop_zero]
    exact List.take_append_drop fs l

/-- C9 (amended): for every MSG whose encoding exceeds the threshold
(and a threshold above the 50-byte FRAG overhead, as everywhere in the
daemon), `fragment_message` produces exactly `ceil(L / (threshold - 50))`
fragments, indexed `0..total-1`, each carrying that total and the
message id, and their payloads concatenate in index order to the
original encoding; when the MSG is additionally wire-safe, that
encoding decodes back to the MSG (without wire safety the decode-back
clause fails, see the counterexample). -/
theorem fragmentation_spec (threshold : Nat) (m : MSG)
    (h50 : 50 < threshold)
    (hL : threshold < (FrameParser.encode (.msg m)).length) :
    (fragmentMessage threshold m).length
        = ((FrameParser.encode (.msg m)).length + (threshold - 50) - 1)
          / (threshold - 50) ∧
    (∀ i : Nat, i < (fragmentMessage threshold m).length →
      ((fragmentMessage threshold m).getD i ⟨[], 0, 1, []⟩).idx = (i : Int)
      ∧ ((fragmentMessage threshold m).getD i ⟨[], 0, 1, []⟩).total
        = ((((FrameParser.encode (.msg m)).length + (threshold - 50) - 1)
          / (threshold - 50) : Nat) : Int)
      ∧ ((fragmentMessage threshold m).getD i ⟨[], 0, 1, []⟩).messageId
        = m.id) ∧
    ((fragmentMessage threshold m).map FRAG.data).flatten
        = FrameParser.encode (.msg m) ∧
    (wireSafe (.msg m) = true →
      FrameParser.decode
          (((fragmentMessage threshold m).map FRAG.data).flatten)
        = some (.msg m)) := by
  have hfrag : fragmentMessage threshold m
      = (List.range
          (((FrameParser.encode (.msg m)).length + (threshold - 50) - 1)
            / (threshold - 50))).map
        (fun (i : Nat) =>
          (⟨m.id, (i : Int),
            (((((FrameParser.encode (.msg m)).length + (threshold - 50)
              - 1) / (threshold - 50) : Nat)) : Int),
            ((FrameParser.encode (.msg m)).drop
              (i * (threshold - 50))).take (threshold - 50)⟩ : FRAG)) := by
    unfold fragmentMessage
    rw [if_neg (by omega)]
  rw [hfrag]
  have hflat :
      (((List.range
          (((FrameParser.encode (.msg m)).length + (threshold - 50) - 1)
            / (threshold - 50))).map
        (fun (i : Nat) =>
          (⟨m.id, (i : Int),
            (((((FrameParser.encode (.msg m)).length + (threshold - 50)
              - 1) / (threshold - 50) : Nat)) : Int),
            ((FrameParser.encode (.msg m)).drop
              (i * (threshold - 50))).take (threshold - 50)⟩ : FRAG))).map
        FRAG.data).flatten = FrameParser.encode (.msg m) := by
    rw [List.map_map]
    exact flatten_chunks (threshold - 50) _ (FrameParser.encode (.msg m))
      (le_ceil_mul _ _ (by omega))
  refine ⟨by simp, ?_, hflat, ?_⟩
  · intro i hi
    simp only [List.length_map, List.length_range] at hi
    have hget : ((List.range
        (((FrameParser.encode (.msg m)).length + (threshold - 50) - 1)
          / (threshold - 50))).map
        (fun (i : Nat) =>
          (⟨m.id, (i : Int),
            (((((FrameParser.encode (.msg m)).length + (threshold - 50)
              - 1) / (threshold - 50) : Nat)) : Int),
            ((FrameParser.encode (.msg m)).drop
              (i * (threshold - 50))).take (threshold - 50)⟩ : FRAG))).getD
        i ⟨[], 0, 1, []⟩
        = (⟨m.id, (i : Int),
            (((((FrameParser.encode (.msg m)).length + (threshold - 50)
              - 1) / (threshold - 50) : Nat)) : Int),
            ((FrameParser.encode (.msg m)).drop
              (i * (threshold - 50))).take (threshold - 50)⟩ : FRAG) := by
      rw [List.getD_eq_getElem?_getD, List.getElem?_map,
        List.getElem?_range hi]
      rfl
    rw [hget]
    exact ⟨rfl, rfl, rfl⟩
  · intro hsafe
    rw [hflat]
    exact frame_roundtrip_aux (.msg m) hsafe

set_option maxRecDepth 100000 in
/-- C9 counterexample: `msgPipeBody` is a valid MSG whose 88-byte
encoding exceeds a 60-byte threshold; its fragments' payloads do
concatenate to the original encoding, but that encoding does not decode
back to the MSG (the `|` in the body breaks the framing), refuting the
unconditional decode-back clause. -/
theorem fragmentation_decode_back_fails :
    MSG.valid msgPipeBody = true ∧
    60 < (FrameParser.encode (.msg msgPipeBody)).length ∧
    FrameParser.decode
        (((fragmentMessage 60 msgPipeBody).map FRAG.data).flatten)
      ≠ some (.msg msgPipeBody) := by
  decide

end Rfmpd

namespace Rfmpd

set_option maxRecDepth 100000 in
theorem fragmentation_spec_witness :
    50 < 60 ∧
    60 < (FrameParser.encode (.msg msgWire)).length ∧
    ((fragmentMessage 60 msgWire).length
        = ((FrameParser.encode (.msg msgWire)).length + (60 - 50) - 1)
          / (60 - 50) ∧
    (∀ i : Nat, i < (fragmentMessage 60 msgWire).length →
      ((fragmentMessage 60 msgWire).getD i ⟨[], 0, 1, []⟩).idx = (i : Int)
      ∧ ((fragmentMessage 60 msgWire).getD i ⟨[], 0, 1, []⟩).total
        = ((((FrameParser.encode (.msg msgWire)).length + (60 - 50) - 1)
          / (60 - 50) : Nat) : Int)
      ∧ ((fragmentMessage 60 msgWire).getD i ⟨[], 0, 1, []⟩).messageId
        = msgWire.id) ∧
    ((fragmentMessage 60 msgWire).map FRAG.data).flatten
        = FrameParser.encode (.msg msgWire) ∧
    (wireSafe (.msg msgWire) = true →
      FrameParser.decode
          (((fragmentMessage 60 msgWire).map FRAG.data).flatten)
        = some (.msg msgWire))) :=
  ⟨by decide, by decide,
    fragmentation_spec 60 msgWire (by decide) (by decide)⟩

end Rfmpd
